import Mathlib

/-!
# Server/MainServer.go: posts, comments and a profile behind HTTP handlers

A shallow embedding of the handlers of `Server/MainServer.go`.

* The three package-level variables `posts`, `comments`, `profile` and the
  file `DB/db.json` form the `State`.  A Go slice is modelled by the list of
  its elements (a nil slice and an empty slice are both `[]`); the one place
  where the backing array is observable, the loop of `DeletePostComments`,
  carries the array explicitly.
* `int` is modelled by `Int`: the only arithmetic is `len(s) + 1`, which cannot
  overflow a 64-bit integer.
* A request is given by its route variables (`mux.Vars`) and by the value the
  JSON decoder leaves in the handler's local variable (the payload).
* A handler yields the state it leaves behind and the value it encodes on the
  response writer, or no response when it panics before writing one
  (`net/http` recovers the panic and the globals keep their values).
* Requests are served one at a time; `main` registers the routes that the
  `routes` table lists in the same order.
-/

namespace MainServer

/-! ## Data model -/

structure Post where
  ID : Int
  Title : String
  Author : String
deriving DecidableEq, Repr

structure Comment where
  ID : Int
  Body : String
  PostID : Int
deriving DecidableEq, Repr

structure Profile where
  Name : String
deriving DecidableEq, Repr

/-- The zero value `Post{}`. -/
def Post.zero : Post := ⟨0, "", ""⟩

/-- The zero value `Comment{}`. -/
def Comment.zero : Comment := ⟨0, "", 0⟩

/-- The zero value `Profile{}`. -/
def Profile.zero : Profile := ⟨""⟩

/-- The JSON document written by `SaveInDB`: keys `posts`, `comments`, `profile`. -/
structure Snapshot where
  posts : List Post
  comments : List Comment
  profile : Profile
deriving DecidableEq, Repr

/-- The package-level variables together with the content of `DB/db.json`
(`none` while `SaveInDB` has not written it). -/
structure State where
  posts : List Post
  comments : List Comment
  profile : Profile
  db : Option Snapshot
deriving DecidableEq, Repr

/-- The state at process start: `var posts []Post`, `var comments []Comment`,
`var profile Profile`, nothing written yet. -/
def State.init : State := ⟨[], [], Profile.zero, none⟩

/-- What a handler encodes on the response writer. -/
inductive Response where
  | posts (ps : List Post)
  | post (p : Post)
  | comments (cs : List Comment)
  | comment (c : Comment)
  | profile (p : Profile)
deriving DecidableEq, Repr

/-- The result of running a handler: the state afterwards and the encoded
response, `none` when the handler panicked before encoding one. -/
structure Outcome where
  state : State
  response : Option Response
deriving DecidableEq, Repr

/-! ## Route variables and `strconv.Atoi` -/

/-- The map returned by `mux.Vars(r)`. -/
abbrev Vars := List (String × String)

/-- Indexing a Go `map[string]string`: the empty string for a missing key. -/
def Vars.get (params : Vars) (key : String) : String :=
  match params.lookup key with
  | some v => v
  | none => ""

/-- Outcome of `strconv.ParseUint(s, 10, 64)` on the digits. -/
inductive UintResult where
  | ok (n : Nat)
  | syntaxError
  | rangeError
deriving DecidableEq, Repr

/-- The digit loop of `strconv.ParseUint` in base 10 with 64 bits: a byte that
is not a digit is a syntax error, a value above `2^64 - 1` a range error, and
the loop stops at the first of them. -/
def parseUintLoop : List Char → Nat → UintResult
  | [], n => .ok n
  | c :: cs, n =>
    if c.toNat < 48 ∨ 57 < c.toNat then .syntaxError
    else if n ≥ (2 ^ 64 - 1) / 10 + 1 then .rangeError
    else
      let n1 := n * 10 + (c.toNat - 48)
      if n1 > 2 ^ 64 - 1 then .rangeError else parseUintLoop cs n1

/-- Go's `strconv.ParseUint(s, 10, 64)`. -/
def parseUint (s : List Char) : UintResult :=
  match s with
  | [] => .syntaxError
  | _ => parseUintLoop s 0

/-- The value of `n, _ := strconv.Atoi(s)` through `ParseInt(s, 10, 0)`, with
which the fast path for short strings agrees: the parsed number, `0` on a
syntax error and the nearest 64-bit bound on a range error. -/
def Atoi (s : String) : Int :=
  match s.data with
  | [] => 0
  | c :: cs =>
    let neg := c = '-'
    let digits := if c = '+' ∨ c = '-' then cs else c :: cs
    match parseUint digits with
    | .syntaxError => 0
    | .rangeError => if neg then -(2 ^ 63) else 2 ^ 63 - 1
    | .ok un =>
      if ¬ neg ∧ un ≥ 2 ^ 63 then 2 ^ 63 - 1
      else if neg ∧ un > 2 ^ 63 then -(2 ^ 63)
      else if neg then -(un : Int) else (un : Int)

/-! ## Persistence -/

/-- Function `SaveInDB`, file creation and encoding assumed to succeed: the file holds
the three collections as they are at the call. -/
def SaveInDB (s : State) : State :=
  { s with db := some ⟨s.posts, s.comments, s.profile⟩ }

/-! ## Post handlers -/

/-- Handler `GetPosts`. -/
def GetPosts (s : State) : Outcome :=
  ⟨SaveInDB s, some (.posts s.posts)⟩

/-- Handler `CreatePost`; `post` is the local variable after decoding the body. -/
def CreatePost (post : Post) (s : State) : Outcome :=
  let post := { post with ID := (s.posts.length : Int) + 1 }
  let s := { s with posts := s.posts ++ [post] }
  ⟨SaveInDB s, some (.post post)⟩

/-- The loop of `GetPost`: the first item with the given id. -/
def GetPost.loop (id : Int) : List Post → Option Post
  | [] => none
  | item :: rest => if item.ID = id then some item else GetPost.loop id rest

/-- Handler `GetPost`: the state is saved only when an item is found. -/
def GetPost (params : Vars) (s : State) : Outcome :=
  let id := Atoi (params.get "id")
  match GetPost.loop id s.posts with
  | some item => ⟨SaveInDB s, some (.post item)⟩
  | none => ⟨s, some (.post Post.zero)⟩

/-- The loop of `UpdatePost` from position `index` on, `rest` being the items
not yet visited: at the first item with the given id, `posts[index]` is
assigned and the handler returns. -/
def UpdatePost.loop (id : Int) (updatedPost : Post) (posts : List Post) :
    Nat → List Post → Option (List Post)
  | _, [] => none
  | index, item :: rest =>
    if item.ID = id then some (posts.set index updatedPost)
    else UpdatePost.loop id updatedPost posts (index + 1) rest

/-- Handler `UpdatePost`; `updatedPost` is the local variable after decoding the body. -/
def UpdatePost (params : Vars) (updatedPost : Post) (s : State) : Outcome :=
  let id := Atoi (params.get "id")
  match UpdatePost.loop id updatedPost s.posts 0 s.posts with
  | some posts => ⟨SaveInDB { s with posts := posts }, some (.post updatedPost)⟩
  | none => ⟨s, some (.post Post.zero)⟩

/-- The loop of `DeletePost` from position `index` on: at the first item with
the given id, `posts = append(posts[:index], posts[index+1:]...)` and `break`. -/
def DeletePost.loop (id : Int) (posts : List Post) : Nat → List Post → List Post
  | _, [] => posts
  | index, item :: rest =>
    if item.ID = id then posts.take index ++ posts.drop (index + 1)
    else DeletePost.loop id posts (index + 1) rest

/-- Handler `DeletePost`. -/
def DeletePost (params : Vars) (s : State) : Outcome :=
  let id := Atoi (params.get "id")
  let s := { s with posts := DeletePost.loop id s.posts 0 s.posts }
  ⟨SaveInDB s, some (.posts s.posts)⟩

/-- The loop of `GetAuthorPosts`, appending the matching posts to `authorPosts`. -/
def GetAuthorPosts.loop (author : String) : List Post → List Post → List Post
  | [], authorPosts => authorPosts
  | post :: rest, authorPosts =>
    if post.Author = author then GetAuthorPosts.loop author rest (authorPosts ++ [post])
    else GetAuthorPosts.loop author rest authorPosts

/-- Handler `GetAuthorPosts`. -/
def GetAuthorPosts (params : Vars) (s : State) : Outcome :=
  let author := params.get "author"
  ⟨SaveInDB s, some (.posts (GetAuthorPosts.loop author s.posts []))⟩

/-- The loop shared in shape by `GetPostComments` and `GetCommentsPost`,
appending the comments of the given post to `postComments`. -/
def postCommentsLoop (postID : Int) : List Comment → List Comment → List Comment
  | [], postComments => postComments
  | comment :: rest, postComments =>
    if comment.PostID = postID then postCommentsLoop postID rest (postComments ++ [comment])
    else postCommentsLoop postID rest postComments

/-- Handler `GetPostComments`: the post id is read from the route variable `postID`. -/
def GetPostComments (params : Vars) (s : State) : Outcome :=
  let postID := Atoi (params.get "postID")
  ⟨SaveInDB s, some (.comments (postCommentsLoop postID s.comments []))⟩

/-! ## Comment handlers -/

/-- The state of the loop of `DeletePostComments`: the backing array over the
extent the `range` clause iterates, the current length of `comments`, the
removed comments so far, and whether a slice expression panicked. -/
structure DeleteLoop where
  array : List Comment
  len : Nat
  commentsToDelete : List Comment
  panicked : Bool
deriving DecidableEq, Repr

/-- The loop of `DeletePostComments` over the indices still to visit.

`range comments` is evaluated once, so the indices run over the original
length and `comment` is read from the backing array, which the body rewrites:
`append(comments[:index], comments[index+1:]...)` moves the elements after
`index` one place down inside the same array and the slice gets one shorter.
`comments[index+1:]` panics when `index + 1` exceeds the current length. -/
def DeletePostComments.loop (postID : Int) : List Nat → DeleteLoop → DeleteLoop
  | [], st => st
  | index :: rest, st =>
    match st.array[index]? with
    | none => { st with panicked := true }
    | some comment =>
      if comment.PostID = postID then
        let commentsToDelete := st.commentsToDelete ++ [comment]
        if index + 1 ≤ st.len then
          let comments := st.array.take st.len
          let shifted := comments.take index ++ comments.drop (index + 1)
          DeletePostComments.loop postID rest
            ⟨shifted ++ st.array.drop (st.len - 1), st.len - 1, commentsToDelete, false⟩
        else ⟨st.array, st.len, commentsToDelete, true⟩
      else DeletePostComments.loop postID rest st

/-- Handler `DeletePostComments`: the post id is read from the route variable `postID`.
When the loop panics nothing is encoded and `SaveInDB` is not reached. -/
def DeletePostComments (params : Vars) (s : State) : Outcome :=
  let postID := Atoi (params.get "postID")
  let st := DeletePostComments.loop postID (List.range s.comments.length)
    ⟨s.comments, s.comments.length, [], false⟩
  let s := { s with comments := st.array.take st.len }
  if st.panicked then ⟨s, none⟩
  else ⟨SaveInDB s, some (.comments st.commentsToDelete)⟩

/-- Handler `GetComments`: no call of `SaveInDB`. -/
def GetComments (s : State) : Outcome :=
  ⟨s, some (.comments s.comments)⟩

/-- Handler `CreateComment`; `comment` is the local variable after decoding the body. -/
def CreateComment (comment : Comment) (s : State) : Outcome :=
  let comment := { comment with ID := (s.comments.length : Int) + 1 }
  let s := { s with comments := s.comments ++ [comment] }
  ⟨SaveInDB s, some (.comment comment)⟩

/-- The loop of `GetComment`: the first item with the given id. -/
def GetComment.loop (id : Int) : List Comment → Option Comment
  | [] => none
  | item :: rest => if item.ID = id then some item else GetComment.loop id rest

/-- Handler `GetComment`: the state is saved only when an item is found. -/
def GetComment (params : Vars) (s : State) : Outcome :=
  let id := Atoi (params.get "id")
  match GetComment.loop id s.comments with
  | some item => ⟨SaveInDB s, some (.comment item)⟩
  | none => ⟨s, some (.comment Comment.zero)⟩

/-- The loop of `UpdateComment` from position `index` on: at the first item with
the given id, `comments[index]` is assigned and the handler returns. -/
def UpdateComment.loop (id : Int) (updatedComment : Comment) (comments : List Comment) :
    Nat → List Comment → Option (List Comment)
  | _, [] => none
  | index, item :: rest =>
    if item.ID = id then some (comments.set index updatedComment)
    else UpdateComment.loop id updatedComment comments (index + 1) rest

/-- Handler `UpdateComment`; `updatedComment` is the local variable after decoding the body. -/
def UpdateComment (params : Vars) (updatedComment : Comment) (s : State) : Outcome :=
  let id := Atoi (params.get "id")
  match UpdateComment.loop id updatedComment s.comments 0 s.comments with
  | some comments => ⟨SaveInDB { s with comments := comments }, some (.comment updatedComment)⟩
  | none => ⟨s, some (.comment Comment.zero)⟩

/-- The loop of `DeleteComment` from position `index` on: at the first item with
the given id, `comments = append(comments[:index], comments[index+1:]...)` and
`break`. -/
def DeleteComment.loop (id : Int) (comments : List Comment) : Nat → List Comment → List Comment
  | _, [] => comments
  | index, item :: rest =>
    if item.ID = id then comments.take index ++ comments.drop (index + 1)
    else DeleteComment.loop id comments (index + 1) rest

/-- Handler `DeleteComment`. -/
def DeleteComment (params : Vars) (s : State) : Outcome :=
  let id := Atoi (params.get "id")
  let s := { s with comments := DeleteComment.loop id s.comments 0 s.comments }
  ⟨SaveInDB s, some (.comments s.comments)⟩

/-- Handler `GetCommentsPost`: the post id is read from the route variable `id`. -/
def GetCommentsPost (params : Vars) (s : State) : Outcome :=
  let postID := Atoi (params.get "id")
  ⟨SaveInDB s, some (.comments (postCommentsLoop postID s.comments []))⟩

/-! ## Profile handlers -/

/-- Handler `GetProfile`. -/
def GetProfile (s : State) : Outcome :=
  ⟨SaveInDB s, some (.profile s.profile)⟩

/-- Handler `CreateProfile`; `newProfile` is the local variable after decoding the body. -/
def CreateProfile (newProfile : Profile) (s : State) : Outcome :=
  ⟨SaveInDB { s with profile := newProfile }, some (.profile newProfile)⟩

/-- Handler `UpdateProfile`; `updatedProfile` is the local variable after decoding the body. -/
def UpdateProfile (updatedProfile : Profile) (s : State) : Outcome :=
  ⟨SaveInDB { s with profile := updatedProfile }, some (.profile updatedProfile)⟩

/-- Handler `DeleteProfile`. -/
def DeleteProfile (s : State) : Outcome :=
  let s := { s with profile := Profile.zero }
  ⟨SaveInDB s, some (.profile s.profile)⟩

/-! ## The router of `main` -/

/-- A path template segment: a literal, or a variable in braces. -/
inductive Seg where
  | lit (s : String)
  | var (name : String)
deriving DecidableEq, Repr

/-- Matching a path, split at the slashes, against a template: a variable takes
one non-empty segment and is recorded under its name. -/
def matchPath : List Seg → List String → Option Vars
  | [], [] => some []
  | .lit s :: tpl, x :: path => if s = x then matchPath tpl path else none
  | .var name :: tpl, x :: path =>
    if x = "" then none
    else match matchPath tpl path with
      | some params => some ((name, x) :: params)
      | none => none
  | _, _ => none

/-- The handlers registered in `main`. -/
inductive Handler where
  | GetPosts | GetPostComments | GetAuthorPosts | CreatePost | GetPost | UpdatePost
  | DeletePost | GetComments | GetCommentsPost | CreateComment | GetComment
  | UpdateComment | DeletePostComments | DeleteComment | GetProfile | CreateProfile
  | UpdateProfile | DeleteProfile
deriving DecidableEq, Repr

/-- The routes of `main`, in registration order: template, method, handler. -/
def routes : List (List Seg × String × Handler) :=
  [ ([.lit "posts"], "GET", .GetPosts),
    ([.lit "posts", .var "id", .lit "comments"], "GET", .GetPostComments),
    ([.lit "posts", .lit "author", .var "author"], "GET", .GetAuthorPosts),
    ([.lit "posts"], "POST", .CreatePost),
    ([.lit "posts", .var "id"], "GET", .GetPost),
    ([.lit "posts", .var "id"], "PUT", .UpdatePost),
    ([.lit "posts", .var "id"], "DELETE", .DeletePost),
    ([.lit "comments"], "GET", .GetComments),
    ([.lit "comments", .lit "post", .var "postID"], "GET", .GetCommentsPost),
    ([.lit "comments"], "POST", .CreateComment),
    ([.lit "comments", .var "id"], "GET", .GetComment),
    ([.lit "comments", .var "id"], "PUT", .UpdateComment),
    ([.lit "comments", .lit "post", .var "postID"], "DELETE", .DeletePostComments),
    ([.lit "comments", .var "id"], "DELETE", .DeleteComment),
    ([.lit "profile"], "GET", .GetProfile),
    ([.lit "profile"], "POST", .CreateProfile),
    ([.lit "profile"], "PUT", .UpdateProfile),
    ([.lit "profile"], "DELETE", .DeleteProfile) ]

/-- The first registered route whose method and template match the request,
with the route variables it binds. -/
def route (method : String) (path : List String) :
    List (List Seg × String × Handler) → Option (Handler × Vars)
  | [] => none
  | (tpl, m, h) :: rest =>
    if m = method then
      match matchPath tpl path with
      | some params => some (h, params)
      | none => route method path rest
    else route method path rest

/-- The decoded request body, by the type of the variable it is decoded into. -/
structure Body where
  post : Post
  comment : Comment
  profile : Profile
deriving DecidableEq, Repr

/-- Running a handler on a request. -/
def Handler.run (h : Handler) (params : Vars) (body : Body) (s : State) : Outcome :=
  match h with
  | .GetPosts => MainServer.GetPosts s
  | .GetPostComments => MainServer.GetPostComments params s
  | .GetAuthorPosts => MainServer.GetAuthorPosts params s
  | .CreatePost => MainServer.CreatePost body.post s
  | .GetPost => MainServer.GetPost params s
  | .UpdatePost => MainServer.UpdatePost params body.post s
  | .DeletePost => MainServer.DeletePost params s
  | .GetComments => MainServer.GetComments s
  | .GetCommentsPost => MainServer.GetCommentsPost params s
  | .CreateComment => MainServer.CreateComment body.comment s
  | .GetComment => MainServer.GetComment params s
  | .UpdateComment => MainServer.UpdateComment params body.comment s
  | .DeletePostComments => MainServer.DeletePostComments params s
  | .DeleteComment => MainServer.DeleteComment params s
  | .GetProfile => MainServer.GetProfile s
  | .CreateProfile => MainServer.CreateProfile body.profile s
  | .UpdateProfile => MainServer.UpdateProfile body.profile s
  | .DeleteProfile => MainServer.DeleteProfile s

/-- Serving one request through the router; `none` when no route matches. -/
def serve (method : String) (path : List String) (body : Body) (s : State) : Option Outcome :=
  match route method path routes with
  | some (h, params) => some (h.run params body s)
  | none => none

/-! ## Sequences of calls -/

/-- Calling `CreatePost` once per payload, in order, with nothing in between. -/
def createPosts (payloads : List Post) (s : State) : State :=
  payloads.foldl (fun st post => (CreatePost post st).state) s

/-- The snapshot on disk is the one of the collections in memory. -/
def InSync (s : State) : Prop :=
  s.db = some ⟨s.posts, s.comments, s.profile⟩

instance (s : State) : Decidable (InSync s) := by
  unfold InSync; infer_instance

/-! ## Sample states -/

/-- Three posts with ids 1, 2, 3 in order, two of them by the same author. -/
def threePosts : State :=
  ⟨[⟨1, "a", "x"⟩, ⟨2, "b", "y"⟩, ⟨3, "c", "x"⟩], [], Profile.zero, none⟩

/-- Two comments with ids 1, 2 on post 7, in sync with the file. -/
def twoComments : State :=
  ⟨[⟨1, "a", "x"⟩], [⟨1, "a", 7⟩, ⟨2, "b", 7⟩], ⟨"q"⟩,
    some ⟨[⟨1, "a", "x"⟩], [⟨1, "a", 7⟩, ⟨2, "b", 7⟩], ⟨"q"⟩⟩⟩

/-- Comments 1 and 2 on post 7 followed by comment 3 on post 8. -/
def mixedComments : State :=
  ⟨[], [⟨1, "a", 7⟩, ⟨2, "b", 7⟩, ⟨3, "c", 8⟩], Profile.zero, none⟩

/-- Comment 1 on post 5 and comment 2 on post 0. -/
def commentsOnFiveAndZero : State :=
  ⟨[], [⟨1, "a", 5⟩, ⟨2, "b", 0⟩], Profile.zero, none⟩

/-- A request without a body: every payload decodes to its zero value. -/
def Body.zero : Body := ⟨Post.zero, Comment.zero, Profile.zero⟩

/-- Posts and comments in which id 2 occurs twice. -/
def duplicateIds : State :=
  ⟨[⟨1, "a", "x"⟩, ⟨2, "b", "y"⟩, ⟨2, "c", "x"⟩], [⟨1, "a", 7⟩, ⟨2, "b", 7⟩, ⟨2, "c", 8⟩],
    Profile.zero, none⟩

/-- Serving a further request on the state left by an earlier one. -/
def thenServe (prev : Option Outcome) (method : String) (path : List String) (body : Body) :
    Option Outcome :=
  match prev with
  | some out => serve method path body out.state
  | none => none

/-- The body of `POST /posts` with title A and author bob. -/
def bodyPostA : Body := ⟨⟨0, "A", "bob"⟩, Comment.zero, Profile.zero⟩

/-- Posts whose authors are bob, Bob, bobby, bob and the empty string. -/
def authorVariants : State :=
  ⟨[⟨1, "t", "bob"⟩, ⟨2, "u", "Bob"⟩, ⟨3, "v", "bobby"⟩, ⟨4, "w", "bob"⟩, ⟨5, "z", ""⟩],
    [], Profile.zero, none⟩

/-! ## Lemmas on the loops -/

theorem postCommentsLoop_eq (postID : Int) (cs acc : List Comment) :
    postCommentsLoop postID cs acc = acc ++ cs.filter (fun c => c.PostID = postID) := by
  induction cs generalizing acc with
  | nil => simp [postCommentsLoop]
  | cons c cs ih =>
    by_cases h : c.PostID = postID
    · simp [postCommentsLoop, h, ih]
    · simp [postCommentsLoop, h, ih]

theorem createPosts_posts (payloads : List Post) (s : State) :
    (createPosts payloads s).posts =
      s.posts ++ payloads.enum.map
        (fun ip => ⟨((s.posts.length + ip.1 : Nat) : Int) + 1, ip.2.Title, ip.2.Author⟩) := by
  induction payloads generalizing s with
  | nil => simp [createPosts]
  | cons p ps ih =>
    have hstep : createPosts (p :: ps) s = createPosts ps (CreatePost p s).state := rfl
    rw [hstep, ih]
    simp only [CreatePost, SaveInDB, List.length_append, List.length_singleton,
      List.append_assoc, List.singleton_append, List.enum_cons, List.map_cons]
    congr 1
    simp only [Nat.add_zero, List.cons.injEq, true_and]
    rw [← List.map_fst_add_enum_eq_enumFrom, List.map_map]
    apply List.map_congr_left
    intro ip _
    simp only [Function.comp, Prod.map, id]
    congr 1
    omega

theorem createPosts_init_posts (payloads : List Post) :
    (createPosts payloads State.init).posts =
      payloads.enum.map (fun ip => ⟨(ip.1 : Int) + 1, ip.2.Title, ip.2.Author⟩) := by
  rw [createPosts_posts]
  simp [State.init]

/-- A list with an element satisfying `p` splits at the first such element. -/
theorem exists_first_split {α : Type} (p : α → Prop) (l : List α) (h : ∃ x ∈ l, p x) :
    ∃ pre x suf, l = pre ++ x :: suf ∧ (∀ y ∈ pre, ¬ p y) ∧ p x := by
  induction l with
  | nil => simp at h
  | cons a l ih =>
    by_cases ha : p a
    · exact ⟨[], a, l, rfl, by simp, ha⟩
    · have h2 : ∃ x ∈ l, p x := by
        obtain ⟨x, hx, hpx⟩ := h
        rcases List.mem_cons.mp hx with rfl | hx
        · exact absurd hpx ha
        · exact ⟨x, hx, hpx⟩
      obtain ⟨pre, x, suf, hl, hpre, hx⟩ := ih h2
      refine ⟨a :: pre, x, suf, by simp [hl], ?_, hx⟩
      intro y hy
      rcases List.mem_cons.mp hy with rfl | hy
      · exact ha
      · exact hpre y hy

theorem DeletePost_loop_none (id : Int) (posts : List Post) (index : Nat) (rest : List Post)
    (h : ∀ y ∈ rest, y.ID ≠ id) : DeletePost.loop id posts index rest = posts := by
  induction rest generalizing index with
  | nil => rfl
  | cons a rest ih =>
    have ha : a.ID ≠ id := h a (List.mem_cons_self _ _)
    simp only [DeletePost.loop, ha, if_false]
    exact ih _ (fun y hy => h y (List.mem_cons_of_mem _ hy))

theorem DeletePost_loop_first (id : Int) (pre mid : List Post) (x : Post) (suf : List Post)
    (hmid : ∀ y ∈ mid, y.ID ≠ id) (hx : x.ID = id) :
    DeletePost.loop id (pre ++ mid ++ x :: suf) pre.length (mid ++ x :: suf)
      = pre ++ mid ++ suf := by
  induction mid generalizing pre with
  | nil =>
    simp only [List.append_nil, List.nil_append, DeletePost.loop, hx, if_true]
    rw [List.take_left, List.drop_append_eq_append_drop]
    simp
  | cons a mid ih =>
    have ha : a.ID ≠ id := hmid a (List.mem_cons_self _ _)
    simp only [List.cons_append, DeletePost.loop, ha, if_false]
    have := ih (pre ++ [a]) (fun y hy => hmid y (List.mem_cons_of_mem _ hy))
    simpa using this

theorem DeleteComment_loop_none (id : Int) (comments : List Comment) (index : Nat)
    (rest : List Comment) (h : ∀ y ∈ rest, y.ID ≠ id) :
    DeleteComment.loop id comments index rest = comments := by
  induction rest generalizing index with
  | nil => rfl
  | cons a rest ih =>
    have ha : a.ID ≠ id := h a (List.mem_cons_self _ _)
    simp only [DeleteComment.loop, ha, if_false]
    exact ih _ (fun y hy => h y (List.mem_cons_of_mem _ hy))

theorem DeleteComment_loop_first (id : Int) (pre mid : List Comment) (x : Comment)
    (suf : List Comment) (hmid : ∀ y ∈ mid, y.ID ≠ id) (hx : x.ID = id) :
    DeleteComment.loop id (pre ++ mid ++ x :: suf) pre.length (mid ++ x :: suf)
      = pre ++ mid ++ suf := by
  induction mid generalizing pre with
  | nil =>
    simp only [List.append_nil, List.nil_append, DeleteComment.loop, hx, if_true]
    rw [List.take_left, List.drop_append_eq_append_drop]
    simp
  | cons a mid ih =>
    have ha : a.ID ≠ id := hmid a (List.mem_cons_self _ _)
    simp only [List.cons_append, DeleteComment.loop, ha, if_false]
    have := ih (pre ++ [a]) (fun y hy => hmid y (List.mem_cons_of_mem _ hy))
    simpa using this

theorem UpdatePost_loop_none (id : Int) (u : Post) (posts : List Post) (index : Nat)
    (rest : List Post) (h : ∀ y ∈ rest, y.ID ≠ id) :
    UpdatePost.loop id u posts index rest = none := by
  induction rest generalizing index with
  | nil => rfl
  | cons a rest ih =>
    have ha : a.ID ≠ id := h a (List.mem_cons_self _ _)
    simp only [UpdatePost.loop, ha, if_false]
    exact ih _ (fun y hy => h y (List.mem_cons_of_mem _ hy))

theorem UpdatePost_loop_first (id : Int) (u : Post) (pre mid : List Post) (x : Post)
    (suf : List Post) (hmid : ∀ y ∈ mid, y.ID ≠ id) (hx : x.ID = id) :
    UpdatePost.loop id u (pre ++ mid ++ x :: suf) pre.length (mid ++ x :: suf)
      = some (pre ++ mid ++ u :: suf) := by
  induction mid generalizing pre with
  | nil =>
    simp only [List.append_nil, List.nil_append, UpdatePost.loop, hx, if_true]
    simp
  | cons a mid ih =>
    have ha : a.ID ≠ id := hmid a (List.mem_cons_self _ _)
    simp only [List.cons_append, UpdatePost.loop, ha, if_false]
    have := ih (pre ++ [a]) (fun y hy => hmid y (List.mem_cons_of_mem _ hy))
    simpa using this

theorem UpdateComment_loop_none (id : Int) (u : Comment) (comments : List Comment) (index : Nat)
    (rest : List Comment) (h : ∀ y ∈ rest, y.ID ≠ id) :
    UpdateComment.loop id u comments index rest = none := by
  induction rest generalizing index with
  | nil => rfl
  | cons a rest ih =>
    have ha : a.ID ≠ id := h a (List.mem_cons_self _ _)
    simp only [UpdateComment.loop, ha, if_false]
    exact ih _ (fun y hy => h y (List.mem_cons_of_mem _ hy))

theorem UpdateComment_loop_first (id : Int) (u : Comment) (pre mid : List Comment) (x : Comment)
    (suf : List Comment) (hmid : ∀ y ∈ mid, y.ID ≠ id) (hx : x.ID = id) :
    UpdateComment.loop id u (pre ++ mid ++ x :: suf) pre.length (mid ++ x :: suf)
      = some (pre ++ mid ++ u :: suf) := by
  induction mid generalizing pre with
  | nil =>
    simp only [List.append_nil, List.nil_append, UpdateComment.loop, hx, if_true]
    simp
  | cons a mid ih =>
    have ha : a.ID ≠ id := hmid a (List.mem_cons_self _ _)
    simp only [List.cons_append, UpdateComment.loop, ha, if_false]
    have := ih (pre ++ [a]) (fun y hy => hmid y (List.mem_cons_of_mem _ hy))
    simpa using this

/-- When the ids are 1..N in order, the post at position i has ID i + 1. -/
theorem ids_getElem (posts : List Post) (N : Nat)
    (hids : posts.map (fun p => p.ID) = (List.range N).map (fun i : Nat => (i : Int) + 1)) :
    posts.length = N ∧ ∀ (i : Nat) (h : i < posts.length), posts[i].ID = (i : Int) + 1 := by
  have hlen : posts.length = N := by
    have := congrArg List.length hids
    simpa using this
  refine ⟨hlen, ?_⟩
  intro i h
  have h1 : (posts.map (fun p => p.ID))[i]? = ((List.range N).map (fun i : Nat => (i : Int) + 1))[i]? := by
    rw [hids]
  rw [List.getElem?_map, List.getElem?_map, List.getElem?_eq_getElem h,
    List.getElem?_range (hlen ▸ h)] at h1
  simpa using h1

/-- With ids 1..N in order, `DeletePost` for k in 1..N removes position k - 1. -/
theorem DeletePost_loop_ids (posts : List Post) (N k : Nat)
    (hids : posts.map (fun p => p.ID) = (List.range N).map (fun i : Nat => (i : Int) + 1))
    (hk1 : 1 ≤ k) (hkN : k ≤ N) :
    DeletePost.loop (k : Int) posts 0 posts = posts.take (k - 1) ++ posts.drop k := by
  obtain ⟨hlen, hget⟩ := ids_getElem posts N hids
  have hj : k - 1 < posts.length := by omega
  have hsplit : posts = posts.take (k - 1) ++ posts[k - 1] :: posts.drop k := by
    have h1 := List.take_append_drop (k - 1) posts
    rw [List.drop_eq_getElem_cons hj] at h1
    have hk : k - 1 + 1 = k := by omega
    rw [hk] at h1
    exact h1.symm
  have hmid : ∀ y ∈ posts.take (k - 1), y.ID ≠ (k : Int) := by
    intro y hy
    obtain ⟨i, hi, rfl⟩ := List.mem_take_iff_getElem.mp hy
    rw [hget i (by omega)]
    have : i < k - 1 := by omega
    omega
  have hx : posts[k - 1].ID = (k : Int) := by
    rw [hget (k - 1) hj]; omega
  have := DeletePost_loop_first (k : Int) [] (posts.take (k - 1)) posts[k - 1] (posts.drop k) hmid hx
  simp only [List.nil_append, List.length_nil] at this
  rw [← hsplit] at this
  exact this

theorem GetPost_loop_none (id : Int) (posts : List Post) (h : ∀ y ∈ posts, y.ID ≠ id) :
    GetPost.loop id posts = none := by
  induction posts with
  | nil => rfl
  | cons a rest ih =>
    have ha : a.ID ≠ id := h a (List.mem_cons_self _ _)
    simp only [GetPost.loop, ha, if_false]
    exact ih (fun y hy => h y (List.mem_cons_of_mem _ hy))

theorem GetPost_loop_first (id : Int) (pre : List Post) (x : Post) (suf : List Post)
    (hpre : ∀ y ∈ pre, y.ID ≠ id) (hx : x.ID = id) :
    GetPost.loop id (pre ++ x :: suf) = some x := by
  induction pre with
  | nil => simp [GetPost.loop, hx]
  | cons a pre ih =>
    have ha : a.ID ≠ id := hpre a (List.mem_cons_self _ _)
    simp only [List.cons_append, GetPost.loop, ha, if_false]
    exact ih (fun y hy => hpre y (List.mem_cons_of_mem _ hy))

theorem GetComment_loop_none (id : Int) (comments : List Comment)
    (h : ∀ y ∈ comments, y.ID ≠ id) : GetComment.loop id comments = none := by
  induction comments with
  | nil => rfl
  | cons a rest ih =>
    have ha : a.ID ≠ id := h a (List.mem_cons_self _ _)
    simp only [GetComment.loop, ha, if_false]
    exact ih (fun y hy => h y (List.mem_cons_of_mem _ hy))

theorem GetComment_loop_first (id : Int) (pre : List Comment) (x : Comment)
    (suf : List Comment) (hpre : ∀ y ∈ pre, y.ID ≠ id) (hx : x.ID = id) :
    GetComment.loop id (pre ++ x :: suf) = some x := by
  induction pre with
  | nil => simp [GetComment.loop, hx]
  | cons a pre ih =>
    have ha : a.ID ≠ id := hpre a (List.mem_cons_self _ _)
    simp only [List.cons_append, GetComment.loop, ha, if_false]
    exact ih (fun y hy => hpre y (List.mem_cons_of_mem _ hy))

theorem GetAuthorPosts_loop_eq (author : String) (ps acc : List Post) :
    GetAuthorPosts.loop author ps acc = acc ++ ps.filter (fun p => p.Author = author) := by
  induction ps generalizing acc with
  | nil => simp [GetAuthorPosts.loop]
  | cons p ps ih =>
    by_cases h : p.Author = author
    · simp [GetAuthorPosts.loop, h, ih]
    · simp [GetAuthorPosts.loop, h, ih]

/-- Whether or not it finds an item, `GetPost` leaves the three collections. -/
theorem GetPost_frame (params : Vars) (s : State) :
    (GetPost params s).state.posts = s.posts ∧ (GetPost params s).state.comments = s.comments ∧
    (GetPost params s).state.profile = s.profile ∧ (GetPost params s).response ≠ none := by
  cases h : GetPost.loop (Atoi (params.get "id")) s.posts <;> simp [GetPost, h, SaveInDB]

/-- Whether or not it finds an item, `GetComment` leaves the three collections. -/
theorem GetComment_frame (params : Vars) (s : State) :
    (GetComment params s).state.posts = s.posts ∧
    (GetComment params s).state.comments = s.comments ∧
    (GetComment params s).state.profile = s.profile ∧
    (GetComment params s).response ≠ none := by
  cases h : GetComment.loop (Atoi (params.get "id")) s.comments <;>
    simp [GetComment, h, SaveInDB]

/-- In a list with pairwise distinct keys, nothing after an element has its key. -/
theorem key_ne_of_nodup_split {α : Type} (f : α → Int) (pre : List α) (x : α) (suf : List α)
    (h : ((pre ++ x :: suf).map f).Nodup) : ∀ y ∈ suf, f y ≠ f x := by
  intro y hy hxy
  rw [List.map_append, List.map_cons] at h
  have h2 := (List.nodup_cons.mp (List.nodup_append.mp h).2.1).1
  exact h2 (hxy ▸ List.mem_map_of_mem f hy)

/-- A key that occurs at another position of the list occurs twice after the
element at the split is replaced by one with that key. -/
theorem not_nodup_of_key_elsewhere {α : Type} (f : α → Int) (pre : List α) (u : α)
    (suf : List α) (h : ∃ y ∈ pre ++ suf, f y = f u) : ¬ ((pre ++ u :: suf).map f).Nodup := by
  obtain ⟨y, hy, hyu⟩ := h
  intro hnd
  rw [List.map_append, List.map_cons] at hnd
  rcases List.mem_append.mp hy with hpre | hsuf
  · exact (List.nodup_append.mp hnd).2.2 (List.mem_map.mpr ⟨y, hpre, hyu⟩) (by simp)
  · exact (List.nodup_cons.mp (List.nodup_append.mp hnd).2.1).1 (List.mem_map.mpr ⟨y, hsuf, hyu⟩)

/-- The element at the split position. -/
theorem split_position_holds {α : Type} (pre : List α) (u : α) (suf : List α) :
    (pre ++ u :: suf)[pre.length]? = some u := by
  rw [List.getElem?_append_right (Nat.le_refl _)]
  simp

/-- The loop of `DeletePostComments` passes over indices whose array element is
on another post without changing anything. -/
theorem DeletePostComments_loop_skip (postID : Int) (is js : List Nat) (st : DeleteLoop)
    (h : ∀ i ∈ is, ∃ c, st.array[i]? = some c ∧ c.PostID ≠ postID) :
    DeletePostComments.loop postID (is ++ js) st = DeletePostComments.loop postID js st := by
  induction is with
  | nil => rfl
  | cons i is ih =>
    obtain ⟨c, hc, hne⟩ := h i (List.mem_cons_self _ _)
    simp only [List.cons_append, DeletePostComments.loop, hc, hne, if_false]
    exact ih (fun j hj => h j (List.mem_cons_of_mem _ hj))

/-- The indices of a list split at a position. -/
theorem range_split (k m : Nat) :
    List.range (k + (m + 1))
      = List.range k ++ (k :: (List.range m).map (fun j => k + 1 + j)) := by
  rw [List.range_add, List.range_succ_eq_map]
  simp only [List.map_cons, List.map_map, Nat.add_zero]
  congr 2
  apply List.map_congr_left
  intro j _
  simp only [Function.comp]
  omega

/-- With no comment on the post, the loop of `DeletePostComments` changes nothing. -/
theorem DeletePostComments_loop_no_match (postID : Int) (cs : List Comment)
    (h : ∀ c ∈ cs, c.PostID ≠ postID) :
    DeletePostComments.loop postID (List.range cs.length) ⟨cs, cs.length, [], false⟩
      = ⟨cs, cs.length, [], false⟩ := by
  have hskip := DeletePostComments_loop_skip postID (List.range cs.length) []
    ⟨cs, cs.length, [], false⟩ (by
      intro i hi
      have hlt : i < cs.length := List.mem_range.mp hi
      exact ⟨cs[i], List.getElem?_eq_getElem hlt, h _ (List.getElem_mem hlt)⟩)
  rw [List.append_nil] at hskip
  rw [hskip]
  rfl

/-- With exactly one comment on the post, the loop of `DeletePostComments`
ends without a panic, with that comment removed from the slice and collected. -/
theorem DeletePostComments_loop_one_match (postID : Int) (pre : List Comment) (x : Comment)
    (suf : List Comment) (hpre : ∀ c ∈ pre, c.PostID ≠ postID) (hx : x.PostID = postID)
    (hsuf : ∀ c ∈ suf, c.PostID ≠ postID) :
    ∃ array, array.take (pre.length + suf.length) = pre ++ suf ∧
      DeletePostComments.loop postID (List.range (pre ++ x :: suf).length)
          ⟨pre ++ x :: suf, (pre ++ x :: suf).length, [], false⟩
        = ⟨array, pre.length + suf.length, [x], false⟩ := by
  have hlen : (pre ++ x :: suf).length = pre.length + (suf.length + 1) := by simp
  refine ⟨pre ++ suf ++ List.drop suf.length (x :: suf), ?_, ?_⟩
  · rw [List.take_left' (by simp)]
  rw [hlen, range_split]
  rw [DeletePostComments_loop_skip postID (List.range pre.length) _ _ (by
    intro i hi
    have hlt : i < pre.length := List.mem_range.mp hi
    refine ⟨pre[i], ?_, hpre _ (List.getElem_mem hlt)⟩
    show (pre ++ x :: suf)[i]? = some pre[i]
    rw [List.getElem?_append_left hlt, List.getElem?_eq_getElem hlt])]
  have hk : (pre ++ x :: suf)[pre.length]? = some x := split_position_holds pre x suf
  have hle : pre.length + 1 ≤ pre.length + (suf.length + 1) := by omega
  have htake : List.take (pre.length + (suf.length + 1)) (pre ++ x :: suf) = pre ++ x :: suf :=
    List.take_of_length_le (by simp)
  have hshift : List.take pre.length (pre ++ x :: suf)
      ++ List.drop (pre.length + 1) (pre ++ x :: suf) = pre ++ suf := by
    rw [List.take_left, List.drop_append_eq_append_drop]
    simp
  have hdrop : List.drop (pre.length + (suf.length + 1) - 1) (pre ++ x :: suf)
      = List.drop suf.length (x :: suf) := by
    have : pre.length + (suf.length + 1) - 1 = pre.length + suf.length := by omega
    rw [this, List.drop_append]
  simp only [DeletePostComments.loop, hk, hx, if_true, hle, htake, hshift, hdrop,
    List.nil_append]
  have hfinal := DeletePostComments_loop_skip postID
    ((List.range suf.length).map (fun j => pre.length + 1 + j)) []
    ⟨pre ++ suf ++ List.drop suf.length (x :: suf), pre.length + (suf.length + 1) - 1, [x], false⟩
    (by
      intro i hi
      obtain ⟨j, hj, rfl⟩ := List.mem_map.mp hi
      have hjlt : j < suf.length := List.mem_range.mp hj
      show ∃ c, (pre ++ suf ++ List.drop suf.length (x :: suf))[pre.length + 1 + j]? = some c
        ∧ c.PostID ≠ postID
      cases suf with
      | nil => simp at hjlt
      | cons a suf2 =>
        have hD : List.drop (a :: suf2).length (x :: a :: suf2)
            = List.drop suf2.length (a :: suf2) := by simp
        rw [hD, List.append_assoc]
        have hidx : pre.length + 1 + j
            < (pre ++ ((a :: suf2) ++ List.drop suf2.length (a :: suf2))).length := by
          simp at hjlt ⊢
          omega
        refine ⟨(pre ++ ((a :: suf2) ++ List.drop suf2.length (a :: suf2)))[pre.length + 1 + j],
          List.getElem?_eq_getElem hidx, ?_⟩
        have hmem : (pre ++ ((a :: suf2) ++ List.drop suf2.length (a :: suf2)))[pre.length + 1 + j]
            ∈ (a :: suf2) ++ List.drop suf2.length (a :: suf2) := by
          rw [List.getElem_append_right (by omega)]
          exact List.getElem_mem _
        rcases List.mem_append.mp hmem with h1 | h2
        · exact hsuf _ h1
        · exact hsuf _ (List.mem_of_mem_drop h2))
  rw [List.append_nil] at hfinal
  rw [hfinal]
  simp only [DeletePostComments.loop]
  congr 1

/-! ## The claims -/

/-- C1 (evaluation at the failing input): with comments 1 and 2 on post 7 and
comment 3 on post 8, `DeletePostComments` for post 7 writes a response,
returns only comment 1 and leaves comment 2, which is on post 7, stored; the
comments not on post 7 are comment 3 alone and those on post 7 are 1 and 2. -/
theorem DeletePostComments_skips_adjacent_match :
    (DeletePostComments [("postID", "7")] mixedComments).state.comments
      = [⟨2, "b", 7⟩, ⟨3, "c", 8⟩] ∧
    (DeletePostComments [("postID", "7")] mixedComments).response
      = some (.comments [⟨1, "a", 7⟩]) ∧
    mixedComments.comments.filter (fun c => c.PostID ≠ 7) = [⟨3, "c", 8⟩] ∧
    mixedComments.comments.filter (fun c => c.PostID = 7) = [⟨1, "a", 7⟩, ⟨2, "b", 7⟩] := by
  decide

/-- C2: `CreatePost` stores the payload with its ID replaced by the number of
posts plus one, whatever ID it carried, appended after the unchanged earlier
posts, and returns the stored record; `CreateComment` does the same on the
comments and keeps the payload's PostID, with no condition on the posts. -/
theorem create_assigns_length_succ (s : State) (post : Post) (comment : Comment) :
    (CreatePost post s).state.posts
        = s.posts ++ [⟨(s.posts.length : Int) + 1, post.Title, post.Author⟩] ∧
    (CreatePost post s).response
        = some (.post ⟨(s.posts.length : Int) + 1, post.Title, post.Author⟩) ∧
    (CreatePost post s).state.comments = s.comments ∧
    (CreatePost post s).state.profile = s.profile ∧
    (CreateComment comment s).state.comments
        = s.comments ++ [⟨(s.comments.length : Int) + 1, comment.Body, comment.PostID⟩] ∧
    (CreateComment comment s).response
        = some (.comment ⟨(s.comments.length : Int) + 1, comment.Body, comment.PostID⟩) ∧
    (CreateComment comment s).state.posts = s.posts ∧
    (CreateComment comment s).state.profile = s.profile := by
  simp [CreatePost, CreateComment, SaveInDB]

/-- C3: after `CreatePost` on each of N payloads in turn from the empty store,
there are N posts, the post at position i (from 0) has ID i + 1 and the title
and author of payload i, and the ids are pairwise distinct. -/
theorem createPosts_ids_in_creation_order (payloads : List Post) :
    (createPosts payloads State.init).posts.length = payloads.length ∧
    (∀ i : Nat, (createPosts payloads State.init).posts[i]?
        = payloads[i]?.map (fun p => ⟨(i : Int) + 1, p.Title, p.Author⟩)) ∧
    ((createPosts payloads State.init).posts.map (fun p => p.ID)).Nodup := by
  rw [createPosts_init_posts]
  refine ⟨by simp, ?_, ?_⟩
  · intro i
    rw [List.getElem?_map, List.getElem?_enum]
    cases payloads[i]? <;> simp
  · rw [List.map_map]
    have h : (List.map ((fun p : Post => p.ID) ∘
          fun ip : Nat × Post => (⟨(ip.1 : Int) + 1, ip.2.Title, ip.2.Author⟩ : Post))
        payloads.enum) = (payloads.enum.map Prod.fst).map (fun n : Nat => (n : Int) + 1) := by
      rw [List.map_map]; rfl
    rw [h, List.enum_map_fst]
    apply List.Nodup.map _ (List.nodup_range _)
    intro a b hab
    simpa using hab

/-- C4: when the ids are 1..N in order and k is one of them, `DeletePost` for k
followed by `CreatePost` gives the new post ID N; for k < N a post with ID N
is still stored, so the ids are no longer pairwise distinct; for k = N they
stay pairwise distinct. -/
theorem delete_then_create_reuses_last_id (s : State) (params : Vars) (payload : Post)
    (N k : Nat)
    (hids : s.posts.map (fun p => p.ID) = (List.range N).map (fun i : Nat => (i : Int) + 1))
    (hk1 : 1 ≤ k) (hkN : k ≤ N) (hid : Atoi (params.get "id") = (k : Int)) :
    (CreatePost payload (DeletePost params s).state).response
        = some (.post ⟨(N : Int), payload.Title, payload.Author⟩) ∧
    (k < N → (∃ q ∈ (DeletePost params s).state.posts, q.ID = (N : Int)) ∧
        ¬ ((CreatePost payload (DeletePost params s).state).state.posts.map
            (fun p => p.ID)).Nodup) ∧
    (k = N → ((CreatePost payload (DeletePost params s).state).state.posts.map
        (fun p => p.ID)).Nodup) := by
  obtain ⟨hlen, hget⟩ := ids_getElem s.posts N hids
  have hdel : (DeletePost params s).state.posts = s.posts.take (k - 1) ++ s.posts.drop k := by
    simp only [DeletePost, SaveInDB, hid]
    exact DeletePost_loop_ids s.posts N k hids hk1 hkN
  have hdlen : (DeletePost params s).state.posts.length = N - 1 := by
    rw [hdel]; simp; omega
  have hnew : (((DeletePost params s).state.posts.length : Nat) : Int) + 1 = (N : Int) := by
    rw [hdlen]; omega
  have hcreate : (CreatePost payload (DeletePost params s).state).state.posts
      = (DeletePost params s).state.posts ++ [⟨(N : Int), payload.Title, payload.Author⟩] := by
    simp only [CreatePost, SaveInDB, hnew]
  refine ⟨by simp only [CreatePost, hnew], ?_, ?_⟩
  · intro hlt
    have hq : ∃ q ∈ (DeletePost params s).state.posts, q.ID = (N : Int) := by
      have hN1 : N - 1 < s.posts.length := by omega
      refine ⟨s.posts[N - 1], ?_, ?_⟩
      · rw [hdel]
        apply List.mem_append_right
        apply List.mem_drop_iff_getElem.mpr
        refine ⟨N - 1 - k, by omega, ?_⟩
        congr 1
        omega
      · rw [hget (N - 1) hN1]; omega
    refine ⟨hq, ?_⟩
    obtain ⟨q, hqmem, hqid⟩ := hq
    rw [hcreate, List.map_append]
    intro hnd
    have hdisj := (List.nodup_append.mp hnd).2.2
    exact hdisj (List.mem_map.mpr ⟨q, hqmem, hqid⟩) (by simp)
  · intro heq
    subst heq
    rw [hcreate, hdel]
    have hdrop : s.posts.drop k = [] := List.drop_eq_nil_of_le (by omega)
    rw [hdrop, List.append_nil, List.map_append, List.map_take, hids]
    have hk : k = (k - 1) + 1 := by omega
    have hL : List.take (k - 1) ((List.range k).map (fun i : Nat => (i : Int) + 1))
          ++ List.map (fun p => p.ID) [(⟨(k : Int), payload.Title, payload.Author⟩ : Post)]
        = (List.range k).map (fun i : Nat => (i : Int) + 1) := by
      conv_rhs => rw [hk, List.range_succ, List.map_append]
      conv_lhs => rw [hk, List.range_succ, List.map_append]
      rw [List.take_left' (by simp)]
      simp
    rw [hL]
    apply List.Nodup.map _ (List.nodup_range _)
    intro a b hab
    simpa using hab

/-- C4 at concrete inputs: with ids 1, 2, 3, deleting 2 and creating gives a
second post with ID 3, while deleting 3 and creating keeps the ids distinct. -/
theorem delete_then_create_reuses_last_id_witness :
    ((CreatePost ⟨0, "n", "z"⟩ (DeletePost [("id", "2")] threePosts).state).response
        = some (.post ⟨3, "n", "z"⟩) ∧
      (∃ q ∈ (DeletePost [("id", "2")] threePosts).state.posts, q.ID = 3) ∧
      ¬ ((CreatePost ⟨0, "n", "z"⟩ (DeletePost [("id", "2")] threePosts).state).state.posts.map
          (fun p => p.ID)).Nodup) ∧
    ((CreatePost ⟨0, "n", "z"⟩ (DeletePost [("id", "3")] threePosts).state).state.posts.map
        (fun p => p.ID)).Nodup :=
  ⟨⟨(delete_then_create_reuses_last_id threePosts [("id", "2")] ⟨0, "n", "z"⟩ 3 2
        (by decide) (by decide) (by decide) (by decide)).1,
      ((delete_then_create_reuses_last_id threePosts [("id", "2")] ⟨0, "n", "z"⟩ 3 2
        (by decide) (by decide) (by decide) (by decide)).2.1 (by decide)).1,
      ((delete_then_create_reuses_last_id threePosts [("id", "2")] ⟨0, "n", "z"⟩ 3 2
        (by decide) (by decide) (by decide) (by decide)).2.1 (by decide)).2⟩,
    (delete_then_create_reuses_last_id threePosts [("id", "3")] ⟨0, "n", "z"⟩ 3 3
        (by decide) (by decide) (by decide) (by decide)).2.2 rfl⟩

/-- C5: when no post has the requested id, `UpdatePost` leaves posts, comments,
profile (and the file) as they are and returns the zero-valued Post; when no
comment has the requested id, `UpdateComment` does the same with the
zero-valued Comment. -/
theorem update_missing_id_changes_nothing (s : State) (params : Vars) (updatedPost : Post)
    (updatedComment : Comment) :
    ((∀ x ∈ s.posts, x.ID ≠ Atoi (params.get "id")) →
      UpdatePost params updatedPost s = ⟨s, some (.post ⟨0, "", ""⟩)⟩) ∧
    ((∀ x ∈ s.comments, x.ID ≠ Atoi (params.get "id")) →
      UpdateComment params updatedComment s = ⟨s, some (.comment ⟨0, "", 0⟩)⟩) := by
  constructor
  · intro h
    simp only [UpdatePost, UpdatePost_loop_none _ _ _ _ _ h, Post.zero]
  · intro h
    simp only [UpdateComment, UpdateComment_loop_none _ _ _ _ _ h, Comment.zero]

/-- C5 at a concrete input: no post and no comment has id 9. -/
theorem update_missing_id_changes_nothing_witness :
    UpdatePost [("id", "9")] ⟨9, "t", "w"⟩ threePosts
        = ⟨threePosts, some (.post ⟨0, "", ""⟩)⟩ ∧
    UpdateComment [("id", "9")] ⟨9, "t", 1⟩ twoComments
        = ⟨twoComments, some (.comment ⟨0, "", 0⟩)⟩ :=
  ⟨(update_missing_id_changes_nothing threePosts [("id", "9")] ⟨9, "t", "w"⟩ ⟨9, "t", 1⟩).1
      (by decide),
    (update_missing_id_changes_nothing twoComments [("id", "9")] ⟨9, "t", "w"⟩ ⟨9, "t", 1⟩).2
      (by decide)⟩

/-- C6: when some post has the requested id, the posts split at the first such
post into `pre`, the post and `suf`, and `UpdatePost` leaves `pre`, the payload
as it is, and `suf`: same length, every other position unchanged, comments and
profile unchanged, and the payload is returned. `UpdateComment` does the same
on the comments. -/
theorem update_replaces_first_match (s : State) (params : Vars) (updatedPost : Post)
    (updatedComment : Comment) :
    ((∃ x ∈ s.posts, x.ID = Atoi (params.get "id")) →
      ∃ pre x suf, s.posts = pre ++ x :: suf ∧ (∀ y ∈ pre, y.ID ≠ Atoi (params.get "id")) ∧
        x.ID = Atoi (params.get "id") ∧
        (UpdatePost params updatedPost s).state.posts = pre ++ updatedPost :: suf ∧
        (UpdatePost params updatedPost s).state.posts.length = s.posts.length ∧
        (UpdatePost params updatedPost s).state.comments = s.comments ∧
        (UpdatePost params updatedPost s).state.profile = s.profile ∧
        (UpdatePost params updatedPost s).response = some (.post updatedPost)) ∧
    ((∃ x ∈ s.comments, x.ID = Atoi (params.get "id")) →
      ∃ pre x suf, s.comments = pre ++ x :: suf ∧ (∀ y ∈ pre, y.ID ≠ Atoi (params.get "id")) ∧
        x.ID = Atoi (params.get "id") ∧
        (UpdateComment params updatedComment s).state.comments = pre ++ updatedComment :: suf ∧
        (UpdateComment params updatedComment s).state.comments.length = s.comments.length ∧
        (UpdateComment params updatedComment s).state.posts = s.posts ∧
        (UpdateComment params updatedComment s).state.profile = s.profile ∧
        (UpdateComment params updatedComment s).response = some (.comment updatedComment)) := by
  constructor
  · intro h
    obtain ⟨pre, x, suf, hsplit, hpre, hx⟩ :=
      exists_first_split (fun x : Post => x.ID = Atoi (params.get "id")) s.posts h
    have hloop := UpdatePost_loop_first _ updatedPost [] pre x suf hpre hx
    simp only [List.nil_append, List.length_nil] at hloop
    refine ⟨pre, x, suf, hsplit, hpre, hx, ?_⟩
    simp only [UpdatePost, hsplit, hloop, SaveInDB]
    simp
  · intro h
    obtain ⟨pre, x, suf, hsplit, hpre, hx⟩ :=
      exists_first_split (fun x : Comment => x.ID = Atoi (params.get "id")) s.comments h
    have hloop := UpdateComment_loop_first _ updatedComment [] pre x suf hpre hx
    simp only [List.nil_append, List.length_nil] at hloop
    refine ⟨pre, x, suf, hsplit, hpre, hx, ?_⟩
    simp only [UpdateComment, hsplit, hloop, SaveInDB]
    simp

/-- C6 at a concrete input: a post and a comment with id 2 exist. -/
theorem update_replaces_first_match_witness :
    (∃ pre x suf, threePosts.posts = pre ++ x :: suf ∧
        (∀ y ∈ pre, y.ID ≠ Atoi (Vars.get [("id", "2")] "id")) ∧
        x.ID = Atoi (Vars.get [("id", "2")] "id") ∧
        (UpdatePost [("id", "2")] ⟨7, "t", ""⟩ threePosts).state.posts
          = pre ++ ⟨7, "t", ""⟩ :: suf ∧
        (UpdatePost [("id", "2")] ⟨7, "t", ""⟩ threePosts).state.posts.length
          = threePosts.posts.length ∧
        (UpdatePost [("id", "2")] ⟨7, "t", ""⟩ threePosts).state.comments
          = threePosts.comments ∧
        (UpdatePost [("id", "2")] ⟨7, "t", ""⟩ threePosts).state.profile
          = threePosts.profile ∧
        (UpdatePost [("id", "2")] ⟨7, "t", ""⟩ threePosts).response
          = some (.post ⟨7, "t", ""⟩)) ∧
    (∃ pre x suf, twoComments.comments = pre ++ x :: suf ∧
        (∀ y ∈ pre, y.ID ≠ Atoi (Vars.get [("id", "2")] "id")) ∧
        x.ID = Atoi (Vars.get [("id", "2")] "id") ∧
        (UpdateComment [("id", "2")] ⟨0, "", 4⟩ twoComments).state.comments
          = pre ++ ⟨0, "", 4⟩ :: suf ∧
        (UpdateComment [("id", "2")] ⟨0, "", 4⟩ twoComments).state.comments.length
          = twoComments.comments.length ∧
        (UpdateComment [("id", "2")] ⟨0, "", 4⟩ twoComments).state.posts
          = twoComments.posts ∧
        (UpdateComment [("id", "2")] ⟨0, "", 4⟩ twoComments).state.profile
          = twoComments.profile ∧
        (UpdateComment [("id", "2")] ⟨0, "", 4⟩ twoComments).response
          = some (.comment ⟨0, "", 4⟩)) :=
  ⟨(update_replaces_first_match threePosts [("id", "2")] ⟨7, "t", ""⟩ ⟨0, "", 4⟩).1
      (by decide),
    (update_replaces_first_match twoComments [("id", "2")] ⟨7, "t", ""⟩ ⟨0, "", 4⟩).2
      (by decide)⟩

/-- C7: when some post has the requested id, the posts split at the first such
post into `pre`, the post and `suf`, and `DeletePost` leaves `pre ++ suf`, one
element fewer, whatever ids occur in `suf`; when no post has that id the posts
are unchanged. `DeleteComment` does the same on the comments. -/
theorem delete_removes_first_match (s : State) (params : Vars) :
    ((∃ x ∈ s.posts, x.ID = Atoi (params.get "id")) →
      ∃ pre x suf, s.posts = pre ++ x :: suf ∧ (∀ y ∈ pre, y.ID ≠ Atoi (params.get "id")) ∧
        x.ID = Atoi (params.get "id") ∧
        (DeletePost params s).state.posts = pre ++ suf ∧
        (DeletePost params s).state.posts.length + 1 = s.posts.length) ∧
    ((∀ x ∈ s.posts, x.ID ≠ Atoi (params.get "id")) →
      (DeletePost params s).state.posts = s.posts) ∧
    ((∃ x ∈ s.comments, x.ID = Atoi (params.get "id")) →
      ∃ pre x suf, s.comments = pre ++ x :: suf ∧ (∀ y ∈ pre, y.ID ≠ Atoi (params.get "id")) ∧
        x.ID = Atoi (params.get "id") ∧
        (DeleteComment params s).state.comments = pre ++ suf ∧
        (DeleteComment params s).state.comments.length + 1 = s.comments.length) ∧
    ((∀ x ∈ s.comments, x.ID ≠ Atoi (params.get "id")) →
      (DeleteComment params s).state.comments = s.comments) := by
  refine ⟨?_, ?_, ?_, ?_⟩
  · intro h
    obtain ⟨pre, x, suf, hsplit, hpre, hx⟩ :=
      exists_first_split (fun x : Post => x.ID = Atoi (params.get "id")) s.posts h
    have hloop := DeletePost_loop_first _ [] pre x suf hpre hx
    simp only [List.nil_append, List.length_nil] at hloop
    refine ⟨pre, x, suf, hsplit, hpre, hx, ?_⟩
    simp only [DeletePost, hsplit, hloop, SaveInDB]
    simp
    omega
  · intro h
    simp only [DeletePost, SaveInDB, DeletePost_loop_none _ _ _ _ h]
  · intro h
    obtain ⟨pre, x, suf, hsplit, hpre, hx⟩ :=
      exists_first_split (fun x : Comment => x.ID = Atoi (params.get "id")) s.comments h
    have hloop := DeleteComment_loop_first _ [] pre x suf hpre hx
    simp only [List.nil_append, List.length_nil] at hloop
    refine ⟨pre, x, suf, hsplit, hpre, hx, ?_⟩
    simp only [DeleteComment, hsplit, hloop, SaveInDB]
    simp
    omega
  · intro h
    simp only [DeleteComment, SaveInDB, DeleteComment_loop_none _ _ _ _ h]

/-- C7 at concrete inputs: deleting id 2, which is present, and id 9, which is not. -/
theorem delete_removes_first_match_witness :
    (∃ pre x suf, threePosts.posts = pre ++ x :: suf ∧
        (∀ y ∈ pre, y.ID ≠ Atoi (Vars.get [("id", "2")] "id")) ∧
        x.ID = Atoi (Vars.get [("id", "2")] "id") ∧
        (DeletePost [("id", "2")] threePosts).state.posts = pre ++ suf ∧
        (DeletePost [("id", "2")] threePosts).state.posts.length + 1
          = threePosts.posts.length) ∧
    (DeletePost [("id", "9")] threePosts).state.posts = threePosts.posts ∧
    (∃ pre x suf, twoComments.comments = pre ++ x :: suf ∧
        (∀ y ∈ pre, y.ID ≠ Atoi (Vars.get [("id", "2")] "id")) ∧
        x.ID = Atoi (Vars.get [("id", "2")] "id") ∧
        (DeleteComment [("id", "2")] twoComments).state.comments = pre ++ suf ∧
        (DeleteComment [("id", "2")] twoComments).state.comments.length + 1
          = twoComments.comments.length) ∧
    (DeleteComment [("id", "9")] twoComments).state.comments = twoComments.comments :=
  ⟨(delete_removes_first_match threePosts [("id", "2")]).1 (by decide),
    (delete_removes_first_match threePosts [("id", "9")]).2.1 (by decide),
    (delete_removes_first_match twoComments [("id", "2")]).2.2.1 (by decide),
    (delete_removes_first_match twoComments [("id", "9")]).2.2.2 (by decide)⟩

/-- C8 (counterexample): on the store of a fresh process, `UpdatePost` for an id
that no post has returns without calling `SaveInDB`, so no snapshot of the
collections exists after the call; and on a store in sync with its file,
`DeletePostComments` for a post with two comments shortens the comments and
stops before `SaveInDB`, so the file still holds the old comments. -/
theorem snapshot_not_written_by_every_mutating_call :
    ¬ InSync (UpdatePost [("id", "1")] ⟨1, "t", "w"⟩ State.init).state ∧
    InSync twoComments ∧
    ¬ InSync (DeletePostComments [("postID", "7")] twoComments).state := by
  decide

/-- C8 (amended): after `CreatePost`, `DeletePost`, `CreateComment`,
`DeleteComment`, `CreateProfile`, `UpdateProfile` and `DeleteProfile` on any
store, after `UpdatePost` or `UpdateComment` when a record has the requested
id, and after `DeletePostComments` whenever it writes a response, the file
holds the posts, comments and profile that are in memory at the end of the
call; `UpdatePost` and `UpdateComment` for an id no record has leave memory
and file as they were. -/
theorem snapshot_in_sync_after_saving_call (s : State) (params : Vars) (post : Post)
    (comment : Comment) (prof : Profile) :
    InSync (CreatePost post s).state ∧
    InSync (DeletePost params s).state ∧
    InSync (CreateComment comment s).state ∧
    InSync (DeleteComment params s).state ∧
    InSync (CreateProfile prof s).state ∧
    InSync (UpdateProfile prof s).state ∧
    InSync (DeleteProfile s).state ∧
    ((∃ x ∈ s.posts, x.ID = Atoi (params.get "id")) →
      InSync (UpdatePost params post s).state) ∧
    ((∀ x ∈ s.posts, x.ID ≠ Atoi (params.get "id")) →
      (UpdatePost params post s).state = s) ∧
    ((∃ x ∈ s.comments, x.ID = Atoi (params.get "id")) →
      InSync (UpdateComment params comment s).state) ∧
    ((∀ x ∈ s.comments, x.ID ≠ Atoi (params.get "id")) →
      (UpdateComment params comment s).state = s) ∧
    ((DeletePostComments params s).response ≠ none →
      InSync (DeletePostComments params s).state) := by
  refine ⟨rfl, rfl, rfl, rfl, rfl, rfl, rfl, ?_, ?_, ?_, ?_, ?_⟩
  · intro h
    obtain ⟨pre, x, suf, hsplit, hpre, hx⟩ :=
      exists_first_split (fun x : Post => x.ID = Atoi (params.get "id")) s.posts h
    have hloop := UpdatePost_loop_first _ post [] pre x suf hpre hx
    simp only [List.nil_append, List.length_nil] at hloop
    simp only [UpdatePost, hsplit, hloop]
    rfl
  · intro h
    simp only [UpdatePost, UpdatePost_loop_none _ _ _ _ _ h]
  · intro h
    obtain ⟨pre, x, suf, hsplit, hpre, hx⟩ :=
      exists_first_split (fun x : Comment => x.ID = Atoi (params.get "id")) s.comments h
    have hloop := UpdateComment_loop_first _ comment [] pre x suf hpre hx
    simp only [List.nil_append, List.length_nil] at hloop
    simp only [UpdateComment, hsplit, hloop]
    rfl
  · intro h
    simp only [UpdateComment, UpdateComment_loop_none _ _ _ _ _ h]
  · intro h
    unfold DeletePostComments at h ⊢
    by_cases hp : (DeletePostComments.loop (Atoi (params.get "postID"))
        (List.range s.comments.length) ⟨s.comments, s.comments.length, [], false⟩).panicked = true
    · simp [hp] at h
    · simp only [hp]
      rfl

/-- C8 (amended) at concrete inputs: updates for the present id 2 and the
absent id 9, and `DeletePostComments` for post 8, which has one comment. -/
theorem snapshot_in_sync_after_saving_call_witness :
    InSync (UpdatePost [("id", "2")] ⟨2, "t", "w"⟩ threePosts).state ∧
    (UpdatePost [("id", "9")] ⟨2, "t", "w"⟩ threePosts).state = threePosts ∧
    InSync (UpdateComment [("id", "2")] ⟨2, "t", 7⟩ twoComments).state ∧
    (UpdateComment [("id", "9")] ⟨2, "t", 7⟩ twoComments).state = twoComments ∧
    InSync (DeletePostComments [("postID", "8")] mixedComments).state :=
  ⟨(snapshot_in_sync_after_saving_call threePosts [("id", "2")] ⟨2, "t", "w"⟩ ⟨2, "t", 7⟩
      ⟨"n"⟩).2.2.2.2.2.2.2.1 (by decide),
    (snapshot_in_sync_after_saving_call threePosts [("id", "9")] ⟨2, "t", "w"⟩ ⟨2, "t", 7⟩
      ⟨"n"⟩).2.2.2.2.2.2.2.2.1 (by decide),
    (snapshot_in_sync_after_saving_call twoComments [("id", "2")] ⟨2, "t", "w"⟩ ⟨2, "t", 7⟩
      ⟨"n"⟩).2.2.2.2.2.2.2.2.2.1 (by decide),
    (snapshot_in_sync_after_saving_call twoComments [("id", "9")] ⟨2, "t", "w"⟩ ⟨2, "t", 7⟩
      ⟨"n"⟩).2.2.2.2.2.2.2.2.2.2.1 (by decide),
    (snapshot_in_sync_after_saving_call mixedComments [("postID", "8")] ⟨2, "t", "w"⟩
      ⟨2, "t", 7⟩ ⟨"n"⟩).2.2.2.2.2.2.2.2.2.2.2 (by decide)⟩

/-- C9: `DeletePost` leaves the comments and the profile as they are, whatever
post ids the comments carry. -/
theorem DeletePost_keeps_comments_and_profile (s : State) (params : Vars) :
    (DeletePost params s).state.comments = s.comments ∧
    (DeletePost params s).state.profile = s.profile :=
  ⟨rfl, rfl⟩

/-- C10 (evaluation at the failing input): with comment 1 on post 5 and comment
2 on post 0 stored, `GET /comments/post/5` is routed to `GetCommentsPost` with
the variable `postID` bound to 5 and `GET /posts/5/comments` to
`GetPostComments` with the variable `id` bound to 5; each handler reads the
variable of the other name, gets post id 0, and returns comment 2 only. -/
theorem comment_listing_reads_unbound_variable :
    route "GET" ["comments", "post", "5"] routes
      = some (.GetCommentsPost, [("postID", "5")]) ∧
    route "GET" ["posts", "5", "comments"] routes
      = some (.GetPostComments, [("id", "5")]) ∧
    (GetCommentsPost [("postID", "5")] commentsOnFiveAndZero).response
      = some (.comments [⟨2, "b", 0⟩]) ∧
    (GetPostComments [("id", "5")] commentsOnFiveAndZero).response
      = some (.comments [⟨2, "b", 0⟩]) ∧
    (serve "GET" ["comments", "post", "5"] Body.zero commentsOnFiveAndZero).map
      (fun out => out.response) = some (some (.comments [⟨2, "b", 0⟩])) ∧
    (serve "GET" ["posts", "5", "comments"] Body.zero commentsOnFiveAndZero).map
      (fun out => out.response) = some (some (.comments [⟨2, "b", 0⟩])) := by
  decide

/-- C11: when some post has the requested id, `GetPost` returns the post at the
first position with that id; when none has it, `GetPost` returns the
zero-valued Post; it always writes a response and leaves posts, comments and
profile as they are. `GetComment` does the same on the comments with the
zero-valued Comment. -/
theorem get_returns_first_match_or_zero (s : State) (params : Vars) :
    ((∃ x ∈ s.posts, x.ID = Atoi (params.get "id")) →
      ∃ pre x suf, s.posts = pre ++ x :: suf ∧ (∀ y ∈ pre, y.ID ≠ Atoi (params.get "id")) ∧
        x.ID = Atoi (params.get "id") ∧ (GetPost params s).response = some (.post x)) ∧
    ((∀ x ∈ s.posts, x.ID ≠ Atoi (params.get "id")) →
      (GetPost params s).response = some (.post ⟨0, "", ""⟩)) ∧
    ((GetPost params s).response ≠ none ∧ (GetPost params s).state.posts = s.posts ∧
      (GetPost params s).state.comments = s.comments ∧
      (GetPost params s).state.profile = s.profile) ∧
    ((∃ x ∈ s.comments, x.ID = Atoi (params.get "id")) →
      ∃ pre x suf, s.comments = pre ++ x :: suf ∧
        (∀ y ∈ pre, y.ID ≠ Atoi (params.get "id")) ∧
        x.ID = Atoi (params.get "id") ∧ (GetComment params s).response = some (.comment x)) ∧
    ((∀ x ∈ s.comments, x.ID ≠ Atoi (params.get "id")) →
      (GetComment params s).response = some (.comment ⟨0, "", 0⟩)) ∧
    ((GetComment params s).response ≠ none ∧ (GetComment params s).state.posts = s.posts ∧
      (GetComment params s).state.comments = s.comments ∧
      (GetComment params s).state.profile = s.profile) := by
  refine ⟨?_, ?_, ?_, ?_, ?_, ?_⟩
  · intro h
    obtain ⟨pre, x, suf, hsplit, hpre, hx⟩ :=
      exists_first_split (fun x : Post => x.ID = Atoi (params.get "id")) s.posts h
    refine ⟨pre, x, suf, hsplit, hpre, hx, ?_⟩
    simp only [GetPost, hsplit, GetPost_loop_first _ pre x suf hpre hx]
  · intro h
    simp only [GetPost, GetPost_loop_none _ _ h, Post.zero]
  · obtain ⟨h1, h2, h3, h4⟩ := GetPost_frame params s
    exact ⟨h4, h1, h2, h3⟩
  · intro h
    obtain ⟨pre, x, suf, hsplit, hpre, hx⟩ :=
      exists_first_split (fun x : Comment => x.ID = Atoi (params.get "id")) s.comments h
    refine ⟨pre, x, suf, hsplit, hpre, hx, ?_⟩
    simp only [GetComment, hsplit, GetComment_loop_first _ pre x suf hpre hx]
  · intro h
    simp only [GetComment, GetComment_loop_none _ _ h, Comment.zero]
  · obtain ⟨h1, h2, h3, h4⟩ := GetComment_frame params s
    exact ⟨h4, h1, h2, h3⟩

/-- C11 at concrete inputs: ids 2 (present) and 9 (absent), on posts and comments. -/
theorem get_returns_first_match_or_zero_witness :
    (∃ pre x suf, duplicateIds.posts = pre ++ x :: suf ∧
        (∀ y ∈ pre, y.ID ≠ Atoi (Vars.get [("id", "2")] "id")) ∧
        x.ID = Atoi (Vars.get [("id", "2")] "id") ∧
        (GetPost [("id", "2")] duplicateIds).response = some (.post x)) ∧
    (GetPost [("id", "9")] duplicateIds).response = some (.post ⟨0, "", ""⟩) ∧
    (∃ pre x suf, duplicateIds.comments = pre ++ x :: suf ∧
        (∀ y ∈ pre, y.ID ≠ Atoi (Vars.get [("id", "2")] "id")) ∧
        x.ID = Atoi (Vars.get [("id", "2")] "id") ∧
        (GetComment [("id", "2")] duplicateIds).response = some (.comment x)) ∧
    (GetComment [("id", "9")] duplicateIds).response = some (.comment ⟨0, "", 0⟩) :=
  ⟨(get_returns_first_match_or_zero duplicateIds [("id", "2")]).1 (by decide),
    (get_returns_first_match_or_zero duplicateIds [("id", "9")]).2.1 (by decide),
    (get_returns_first_match_or_zero duplicateIds [("id", "2")]).2.2.2.1 (by decide),
    (get_returns_first_match_or_zero duplicateIds [("id", "9")]).2.2.2.2.1 (by decide)⟩

/-- C12: called with the route variable `author` bound to a string a,
`GetAuthorPosts` returns the posts whose Author is equal to a, in stored order;
the returned list is empty exactly when no post has author a. -/
theorem GetAuthorPosts_returns_exact_author_matches (s : State) (params : Vars) (a : String)
    (ha : params.lookup "author" = some a) :
    (GetAuthorPosts params s).response
      = some (.posts (s.posts.filter (fun p => p.Author = a))) ∧
    ((GetAuthorPosts params s).response = some (.posts [])
      ↔ ∀ p ∈ s.posts, p.Author ≠ a) := by
  have hget : params.get "author" = a := by
    simp only [Vars.get, ha]
  have h : (GetAuthorPosts params s).response
      = some (.posts (s.posts.filter (fun p => p.Author = a))) := by
    simp [GetAuthorPosts, GetAuthorPosts_loop_eq, hget]
  refine ⟨h, ?_⟩
  rw [h]
  simp [List.filter_eq_nil_iff]

/-- C12 at concrete inputs: among the authors bob, Bob, bobby, bob and the
empty string, the request for bob returns posts 1 and 4 only, and the request
for al returns the empty list. -/
theorem GetAuthorPosts_returns_exact_author_matches_witness :
    (GetAuthorPosts [("author", "bob")] authorVariants).response
      = some (.posts [⟨1, "t", "bob"⟩, ⟨4, "w", "bob"⟩]) ∧
    (GetAuthorPosts [("author", "al")] authorVariants).response = some (.posts []) :=
  ⟨(GetAuthorPosts_returns_exact_author_matches authorVariants [("author", "bob")] "bob"
      (by decide)).1,
    (GetAuthorPosts_returns_exact_author_matches authorVariants [("author", "al")] "al"
      (by decide)).2.mpr (by decide)⟩

/-- C13: after `CreateProfile` or `UpdateProfile` with payload p the stored
profile is p whatever it was, and `GetProfile` then returns p; after
`DeleteProfile` the stored profile is the zero value and a second
`DeleteProfile` changes nothing more; none of the four profile handlers
changes posts or comments. -/
theorem profile_is_replaced_and_cleared (s : State) (p : Profile) :
    ((CreateProfile p s).state.profile = p ∧
      (GetProfile (CreateProfile p s).state).response = some (.profile p) ∧
      (UpdateProfile p s).state.profile = p ∧
      (GetProfile (UpdateProfile p s).state).response = some (.profile p)) ∧
    ((DeleteProfile s).state.profile = ⟨""⟩ ∧
      DeleteProfile (DeleteProfile s).state = DeleteProfile s) ∧
    ((CreateProfile p s).state.posts = s.posts ∧ (CreateProfile p s).state.comments = s.comments ∧
      (UpdateProfile p s).state.posts = s.posts ∧ (UpdateProfile p s).state.comments = s.comments ∧
      (DeleteProfile s).state.posts = s.posts ∧ (DeleteProfile s).state.comments = s.comments ∧
      (GetProfile s).state.posts = s.posts ∧ (GetProfile s).state.comments = s.comments ∧
      (GetProfile s).state.profile = s.profile) := by
  refine ⟨⟨rfl, rfl, rfl, rfl⟩, ⟨rfl, rfl⟩, rfl, rfl, rfl, rfl, rfl, rfl, rfl, rfl, rfl⟩

/-- C14: from the empty store, `POST /posts` with title A and author bob
returns the post with id 1, `GET /posts/author/bob` then returns that post
alone, and after `DELETE /posts/1` the request `GET /posts/1` returns the
zero-valued Post; and on every store whose post ids are pairwise distinct,
`GetPost` after `DeletePost` for the same id returns the zero-valued Post. -/
theorem deleted_post_is_not_found :
    ((serve "POST" ["posts"] bodyPostA State.init).map (fun out => out.response)
        = some (some (.post ⟨1, "A", "bob"⟩)) ∧
      (thenServe (serve "POST" ["posts"] bodyPostA State.init)
          "GET" ["posts", "author", "bob"] Body.zero).map (fun out => out.response)
        = some (some (.posts [⟨1, "A", "bob"⟩])) ∧
      (thenServe (thenServe (thenServe (serve "POST" ["posts"] bodyPostA State.init)
          "GET" ["posts", "author", "bob"] Body.zero)
          "DELETE" ["posts", "1"] Body.zero)
          "GET" ["posts", "1"] Body.zero).map (fun out => out.response)
        = some (some (.post ⟨0, "", ""⟩))) ∧
    (∀ (s : State) (params : Vars), (s.posts.map (fun p => p.ID)).Nodup →
      (GetPost params (DeletePost params s).state).response = some (.post ⟨0, "", ""⟩)) := by
  refine ⟨by decide, ?_⟩
  intro s params hnd
  have hnone : ∀ y ∈ (DeletePost params s).state.posts, y.ID ≠ Atoi (params.get "id") := by
    by_cases h : ∃ x ∈ s.posts, x.ID = Atoi (params.get "id")
    · obtain ⟨pre, x, suf, hsplit, hpre, hx⟩ :=
        exists_first_split (fun x : Post => x.ID = Atoi (params.get "id")) s.posts h
      have hloop := DeletePost_loop_first _ [] pre x suf hpre hx
      simp only [List.nil_append, List.length_nil] at hloop
      have hposts : (DeletePost params s).state.posts = pre ++ suf := by
        simp only [DeletePost, hsplit, hloop, SaveInDB]
      rw [hposts]
      intro y hy
      rcases List.mem_append.mp hy with hp | hs
      · exact hpre y hp
      · rw [hsplit] at hnd
        have := key_ne_of_nodup_split (fun p : Post => p.ID) pre x suf hnd y hs
        rw [← hx]
        exact this
    · have h2 : ∀ x ∈ s.posts, x.ID ≠ Atoi (params.get "id") := by
        intro x hx hid
        exact h ⟨x, hx, hid⟩
      have hposts : (DeletePost params s).state.posts = s.posts := by
        simp only [DeletePost, SaveInDB, DeletePost_loop_none _ _ _ _ h2]
      rw [hposts]
      exact h2
  simp only [GetPost, GetPost_loop_none _ _ hnone, Post.zero]

/-- C14 at a concrete input: three posts with ids 1, 2, 3, delete and get 2. -/
theorem deleted_post_is_not_found_witness :
    (GetPost [("id", "2")] (DeletePost [("id", "2")] threePosts).state).response
      = some (.post ⟨0, "", ""⟩) :=
  deleted_post_is_not_found.2 threePosts [("id", "2")] (by decide)

/-- C15 (evaluation at the failing input): with comments 1 and 2 both on post
7, the iteration at index 0 removes comment 1 and leaves length 1 with comment
2 moved down in the array; the iteration at index 1 reads the old copy of
comment 2, where index + 1 = 2 exceeds the length 1, so the slice expression
panics: no response is written and comment 2 stays stored. -/
theorem DeletePostComments_panics_on_two_matches :
    DeletePostComments.loop 7 [0] ⟨[⟨1, "a", 7⟩, ⟨2, "b", 7⟩], 2, [], false⟩
      = ⟨[⟨2, "b", 7⟩, ⟨2, "b", 7⟩], 1, [⟨1, "a", 7⟩], false⟩ ∧
    DeletePostComments.loop 7 [1] ⟨[⟨2, "b", 7⟩, ⟨2, "b", 7⟩], 1, [⟨1, "a", 7⟩], false⟩
      = ⟨[⟨2, "b", 7⟩, ⟨2, "b", 7⟩], 1, [⟨1, "a", 7⟩, ⟨2, "b", 7⟩], true⟩ ∧
    (DeletePostComments [("postID", "7")] twoComments).response = none ∧
    (DeletePostComments [("postID", "7")] twoComments).state.comments = [⟨2, "b", 7⟩] := by
  decide

/-- C16: when at most one comment is on the requested post,
`DeletePostComments` writes a response, returns the comments on that post (the
one comment, or none) and leaves the other comments in their order: when there
is such a comment, the stored comments are the original ones with that one
element taken out. Posts and profile are unchanged. -/
theorem DeletePostComments_removes_single_match (s : State) (params : Vars)
    (h : (s.comments.filter (fun c => c.PostID = Atoi (params.get "postID"))).length ≤ 1) :
    (DeletePostComments params s).response
      = some (.comments (s.comments.filter (fun c => c.PostID = Atoi (params.get "postID")))) ∧
    (DeletePostComments params s).state.comments
      = s.comments.filter (fun c => c.PostID ≠ Atoi (params.get "postID")) ∧
    ((∃ x ∈ s.comments, x.PostID = Atoi (params.get "postID")) →
      ∃ pre x suf, s.comments = pre ++ x :: suf ∧ x.PostID = Atoi (params.get "postID") ∧
        (DeletePostComments params s).response = some (.comments [x]) ∧
        (DeletePostComments params s).state.comments = pre ++ suf) ∧
    ((∀ x ∈ s.comments, x.PostID ≠ Atoi (params.get "postID")) →
      (DeletePostComments params s).response = some (.comments []) ∧
      (DeletePostComments params s).state.comments = s.comments) ∧
    (DeletePostComments params s).state.posts = s.posts ∧
    (DeletePostComments params s).state.profile = s.profile := by
  by_cases hex : ∃ x ∈ s.comments, x.PostID = Atoi (params.get "postID")
  · obtain ⟨pre, x, suf, hsplit, hpre, hx⟩ :=
      exists_first_split (fun c : Comment => c.PostID = Atoi (params.get "postID")) s.comments hex
    have hfpre : pre.filter (fun c => c.PostID = Atoi (params.get "postID")) = [] := by
      rw [List.filter_eq_nil_iff]
      intro c hc
      simpa using hpre c hc
    have hfsuf : suf.filter (fun c => c.PostID = Atoi (params.get "postID")) = [] := by
      rw [hsplit, List.filter_append, hfpre, List.nil_append,
        List.filter_cons_of_pos (by simpa using hx)] at h
      simp only [List.length_cons] at h
      exact List.eq_nil_of_length_eq_zero (by omega)
    have hsuf : ∀ c ∈ suf, c.PostID ≠ Atoi (params.get "postID") := by
      intro c hc
      have := List.filter_eq_nil_iff.mp hfsuf c hc
      simpa using this
    obtain ⟨array, htake, hloop⟩ :=
      DeletePostComments_loop_one_match _ pre x suf hpre hx hsuf
    have hresp : (DeletePostComments params s).response = some (.comments [x]) := by
      simp only [DeletePostComments, hsplit, hloop]
      rfl
    have hcs : (DeletePostComments params s).state.comments = pre ++ suf := by
      simp only [DeletePostComments, hsplit, hloop, htake]
      rfl
    have hposts : (DeletePostComments params s).state.posts = s.posts := by
      simp only [DeletePostComments, hsplit, hloop]
      rfl
    have hprof : (DeletePostComments params s).state.profile = s.profile := by
      simp only [DeletePostComments, hsplit, hloop]
      rfl
    have hfeq : s.comments.filter (fun c => c.PostID = Atoi (params.get "postID")) = [x] := by
      rw [hsplit, List.filter_append, hfpre, List.nil_append,
        List.filter_cons_of_pos (by simpa using hx), hfsuf]
    have hfne : s.comments.filter (fun c => c.PostID ≠ Atoi (params.get "postID"))
        = pre ++ suf := by
      rw [hsplit, List.filter_append, List.filter_cons_of_neg (by simpa using hx)]
      rw [List.filter_eq_self.mpr (by intro c hc; simpa using hpre c hc),
        List.filter_eq_self.mpr (by intro c hc; simpa using hsuf c hc)]
    refine ⟨by rw [hresp, hfeq], by rw [hcs, hfne], ?_, ?_, hposts, hprof⟩
    · intro _
      exact ⟨pre, x, suf, hsplit, hx, hresp, hcs⟩
    · intro hall
      obtain ⟨y, hy, hyp⟩ := hex
      exact absurd hyp (hall y hy)
  · have hall : ∀ c ∈ s.comments, c.PostID ≠ Atoi (params.get "postID") := by
      intro c hc hp
      exact hex ⟨c, hc, hp⟩
    have hloop := DeletePostComments_loop_no_match _ s.comments hall
    have hresp : (DeletePostComments params s).response = some (.comments []) := by
      simp only [DeletePostComments, hloop]
      rfl
    have hcs : (DeletePostComments params s).state.comments = s.comments := by
      simp only [DeletePostComments, hloop, List.take_length]
      rfl
    have hposts : (DeletePostComments params s).state.posts = s.posts := by
      simp only [DeletePostComments, hloop]
      rfl
    have hprof : (DeletePostComments params s).state.profile = s.profile := by
      simp only [DeletePostComments, hloop]
      rfl
    have hfeq : s.comments.filter (fun c => c.PostID = Atoi (params.get "postID")) = [] := by
      rw [List.filter_eq_nil_iff]
      intro c hc
      simpa using hall c hc
    have hfne : s.comments.filter (fun c => c.PostID ≠ Atoi (params.get "postID"))
        = s.comments :=
      List.filter_eq_self.mpr (by intro c hc; simpa using hall c hc)
    refine ⟨by rw [hresp, hfeq], by rw [hcs, hfne], ?_, ?_, hposts, hprof⟩
    · intro h2
      exact absurd h2 hex
    · intro _
      exact ⟨hresp, hcs⟩

/-- C16 at concrete inputs: post 8 has one comment among three, post 9 none. -/
theorem DeletePostComments_removes_single_match_witness :
    ((DeletePostComments [("postID", "8")] mixedComments).response
        = some (.comments [⟨3, "c", 8⟩]) ∧
      (DeletePostComments [("postID", "8")] mixedComments).state.comments
        = [⟨1, "a", 7⟩, ⟨2, "b", 7⟩]) ∧
    ((DeletePostComments [("postID", "5")] commentsOnFiveAndZero).response
        = some (.comments [⟨1, "a", 5⟩]) ∧
      (DeletePostComments [("postID", "5")] commentsOnFiveAndZero).state.comments
        = [⟨2, "b", 0⟩]) ∧
    ((DeletePostComments [("postID", "9")] mixedComments).response = some (.comments []) ∧
      (DeletePostComments [("postID", "9")] mixedComments).state.comments
        = mixedComments.comments) :=
  ⟨⟨(DeletePostComments_removes_single_match mixedComments [("postID", "8")] (by decide)).1,
      (DeletePostComments_removes_single_match mixedComments [("postID", "8")] (by decide)).2.1⟩,
    ⟨(DeletePostComments_removes_single_match commentsOnFiveAndZero [("postID", "5")]
        (by decide)).1,
      (DeletePostComments_removes_single_match commentsOnFiveAndZero [("postID", "5")]
        (by decide)).2.1⟩,
    (DeletePostComments_removes_single_match mixedComments [("postID", "9")]
      (by decide)).2.2.2.1 (by decide)⟩

/-- C17: when some post has the requested id, the record at the first matching
position after `UpdatePost` is the payload, with the payload's own ID, and if
a post at another position has the payload's ID the ids are no longer pairwise
distinct; on a store with pairwise distinct ids and a payload whose ID differs
from the requested id, `GetPost` for that id afterwards returns the
zero-valued Post. `UpdateComment` and `GetComment` behave the same way. -/
theorem update_stores_payload_id (s : State) (params : Vars) (updatedPost : Post)
    (updatedComment : Comment) :
    ((∃ x ∈ s.posts, x.ID = Atoi (params.get "id")) →
      ∃ pre x suf, s.posts = pre ++ x :: suf ∧ (∀ y ∈ pre, y.ID ≠ Atoi (params.get "id")) ∧
        x.ID = Atoi (params.get "id") ∧
        (UpdatePost params updatedPost s).state.posts[pre.length]? = some updatedPost ∧
        ((UpdatePost params updatedPost s).state.posts[pre.length]?).map (fun p => p.ID)
          = some updatedPost.ID ∧
        ((∃ y ∈ pre ++ suf, y.ID = updatedPost.ID) →
          ¬ ((UpdatePost params updatedPost s).state.posts.map (fun p => p.ID)).Nodup)) ∧
    ((s.posts.map (fun p => p.ID)).Nodup → updatedPost.ID ≠ Atoi (params.get "id") →
      (GetPost params (UpdatePost params updatedPost s).state).response
        = some (.post ⟨0, "", ""⟩)) ∧
    ((∃ x ∈ s.comments, x.ID = Atoi (params.get "id")) →
      ∃ pre x suf, s.comments = pre ++ x :: suf ∧
        (∀ y ∈ pre, y.ID ≠ Atoi (params.get "id")) ∧
        x.ID = Atoi (params.get "id") ∧
        (UpdateComment params updatedComment s).state.comments[pre.length]?
          = some updatedComment ∧
        ((UpdateComment params updatedComment s).state.comments[pre.length]?).map
          (fun c => c.ID) = some updatedComment.ID ∧
        ((∃ y ∈ pre ++ suf, y.ID = updatedComment.ID) →
          ¬ ((UpdateComment params updatedComment s).state.comments.map
            (fun c => c.ID)).Nodup)) ∧
    ((s.comments.map (fun c => c.ID)).Nodup → updatedComment.ID ≠ Atoi (params.get "id") →
      (GetComment params (UpdateComment params updatedComment s).state).response
        = some (.comment ⟨0, "", 0⟩)) := by
  refine ⟨?_, ?_, ?_, ?_⟩
  · intro h
    obtain ⟨pre, x, suf, hsplit, hpre, hx⟩ :=
      exists_first_split (fun x : Post => x.ID = Atoi (params.get "id")) s.posts h
    have hloop := UpdatePost_loop_first _ updatedPost [] pre x suf hpre hx
    simp only [List.nil_append, List.length_nil] at hloop
    have hposts : (UpdatePost params updatedPost s).state.posts = pre ++ updatedPost :: suf := by
      simp only [UpdatePost, hsplit, hloop, SaveInDB]
    refine ⟨pre, x, suf, hsplit, hpre, hx, ?_, ?_, ?_⟩
    · rw [hposts]; exact split_position_holds pre updatedPost suf
    · rw [hposts, split_position_holds pre updatedPost suf]; rfl
    · intro hy
      rw [hposts]
      exact not_nodup_of_key_elsewhere (fun p : Post => p.ID) pre updatedPost suf hy
  · intro hnd hne
    have hnone : ∀ y ∈ (UpdatePost params updatedPost s).state.posts,
        y.ID ≠ Atoi (params.get "id") := by
      by_cases h : ∃ x ∈ s.posts, x.ID = Atoi (params.get "id")
      · obtain ⟨pre, x, suf, hsplit, hpre, hx⟩ :=
          exists_first_split (fun x : Post => x.ID = Atoi (params.get "id")) s.posts h
        have hloop := UpdatePost_loop_first _ updatedPost [] pre x suf hpre hx
        simp only [List.nil_append, List.length_nil] at hloop
        have hposts : (UpdatePost params updatedPost s).state.posts
            = pre ++ updatedPost :: suf := by
          simp only [UpdatePost, hsplit, hloop, SaveInDB]
        rw [hposts]
        intro y hy
        rcases List.mem_append.mp hy with hp | hs
        · exact hpre y hp
        · rcases List.mem_cons.mp hs with rfl | hs
          · exact hne
          · rw [hsplit] at hnd
            have := key_ne_of_nodup_split (fun p : Post => p.ID) pre x suf hnd y hs
            rw [← hx]
            exact this
      · have h2 : ∀ x ∈ s.posts, x.ID ≠ Atoi (params.get "id") := by
          intro x hx hid
          exact h ⟨x, hx, hid⟩
        have hposts : (UpdatePost params updatedPost s).state.posts = s.posts := by
          simp only [UpdatePost, UpdatePost_loop_none _ _ _ _ _ h2]
        rw [hposts]
        exact h2
    simp only [GetPost, GetPost_loop_none _ _ hnone, Post.zero]
  · intro h
    obtain ⟨pre, x, suf, hsplit, hpre, hx⟩ :=
      exists_first_split (fun x : Comment => x.ID = Atoi (params.get "id")) s.comments h
    have hloop := UpdateComment_loop_first _ updatedComment [] pre x suf hpre hx
    simp only [List.nil_append, List.length_nil] at hloop
    have hcs : (UpdateComment params updatedComment s).state.comments
        = pre ++ updatedComment :: suf := by
      simp only [UpdateComment, hsplit, hloop, SaveInDB]
    refine ⟨pre, x, suf, hsplit, hpre, hx, ?_, ?_, ?_⟩
    · rw [hcs]; exact split_position_holds pre updatedComment suf
    · rw [hcs, split_position_holds pre updatedComment suf]; rfl
    · intro hy
      rw [hcs]
      exact not_nodup_of_key_elsewhere (fun c : Comment => c.ID) pre updatedComment suf hy
  · intro hnd hne
    have hnone : ∀ y ∈ (UpdateComment params updatedComment s).state.comments,
        y.ID ≠ Atoi (params.get "id") := by
      by_cases h : ∃ x ∈ s.comments, x.ID = Atoi (params.get "id")
      · obtain ⟨pre, x, suf, hsplit, hpre, hx⟩ :=
          exists_first_split (fun x : Comment => x.ID = Atoi (params.get "id")) s.comments h
        have hloop := UpdateComment_loop_first _ updatedComment [] pre x suf hpre hx
        simp only [List.nil_append, List.length_nil] at hloop
        have hcs : (UpdateComment params updatedComment s).state.comments
            = pre ++ updatedComment :: suf := by
          simp only [UpdateComment, hsplit, hloop, SaveInDB]
        rw [hcs]
        intro y hy
        rcases List.mem_append.mp hy with hp | hs
        · exact hpre y hp
        · rcases List.mem_cons.mp hs with rfl | hs
          · exact hne
          · rw [hsplit] at hnd
            have := key_ne_of_nodup_split (fun c : Comment => c.ID) pre x suf hnd y hs
            rw [← hx]
            exact this
      · have h2 : ∀ x ∈ s.comments, x.ID ≠ Atoi (params.get "id") := by
          intro x hx hid
          exact h ⟨x, hx, hid⟩
        have hcs : (UpdateComment params updatedComment s).state.comments = s.comments := by
          simp only [UpdateComment, UpdateComment_loop_none _ _ _ _ _ h2]
        rw [hcs]
        exact h2
    simp only [GetComment, GetComment_loop_none _ _ hnone, Comment.zero]

/-- C17 at concrete inputs: updating post 2 of three with a payload of ID 3, and
comment 2 of two with a payload of ID 1. -/
theorem update_stores_payload_id_witness :
    (∃ pre x suf, threePosts.posts = pre ++ x :: suf ∧
        (∀ y ∈ pre, y.ID ≠ Atoi (Vars.get [("id", "2")] "id")) ∧
        x.ID = Atoi (Vars.get [("id", "2")] "id") ∧
        (UpdatePost [("id", "2")] ⟨3, "t", "w"⟩ threePosts).state.posts[pre.length]?
          = some ⟨3, "t", "w"⟩ ∧
        ((UpdatePost [("id", "2")] ⟨3, "t", "w"⟩ threePosts).state.posts[pre.length]?).map
          (fun p => p.ID) = some 3 ∧
        ((∃ y ∈ pre ++ suf, y.ID = 3) →
          ¬ ((UpdatePost [("id", "2")] ⟨3, "t", "w"⟩ threePosts).state.posts.map
            (fun p => p.ID)).Nodup)) ∧
    (GetPost [("id", "2")] (UpdatePost [("id", "2")] ⟨3, "t", "w"⟩ threePosts).state).response
      = some (.post ⟨0, "", ""⟩) ∧
    ¬ ((UpdatePost [("id", "2")] ⟨3, "t", "w"⟩ threePosts).state.posts.map
      (fun p => p.ID)).Nodup ∧
    (∃ pre x suf, twoComments.comments = pre ++ x :: suf ∧
        (∀ y ∈ pre, y.ID ≠ Atoi (Vars.get [("id", "2")] "id")) ∧
        x.ID = Atoi (Vars.get [("id", "2")] "id") ∧
        (UpdateComment [("id", "2")] ⟨1, "t", 7⟩ twoComments).state.comments[pre.length]?
          = some ⟨1, "t", 7⟩ ∧
        ((UpdateComment [("id", "2")] ⟨1, "t", 7⟩ twoComments).state.comments[pre.length]?).map
          (fun c => c.ID) = some 1 ∧
        ((∃ y ∈ pre ++ suf, y.ID = 1) →
          ¬ ((UpdateComment [("id", "2")] ⟨1, "t", 7⟩ twoComments).state.comments.map
            (fun c => c.ID)).Nodup)) ∧
    (GetComment [("id", "2")]
        (UpdateComment [("id", "2")] ⟨1, "t", 7⟩ twoComments).state).response
      = some (.comment ⟨0, "", 0⟩) :=
  ⟨(update_stores_payload_id threePosts [("id", "2")] ⟨3, "t", "w"⟩ ⟨1, "t", 7⟩).1 (by decide),
    (update_stores_payload_id threePosts [("id", "2")] ⟨3, "t", "w"⟩ ⟨1, "t", 7⟩).2.1
      (by decide) (by decide),
    by decide,
    (update_stores_payload_id twoComments [("id", "2")] ⟨3, "t", "w"⟩ ⟨1, "t", 7⟩).2.2.1
      (by decide),
    (update_stores_payload_id twoComments [("id", "2")] ⟨3, "t", "w"⟩ ⟨1, "t", 7⟩).2.2.2
      (by decide) (by decide)⟩

/-- C18: each of the eight read handlers leaves posts, comments and profile as
they are, for every store and every route variables; `GetPosts` returns all
the posts and `GetComments` all the comments, in stored order. -/
theorem read_handlers_keep_collections (s : State) (params : Vars) :
    ((GetPosts s).response = some (.posts s.posts) ∧
      (GetComments s).response = some (.comments s.comments)) ∧
    ((GetPosts s).state.posts = s.posts ∧ (GetPosts s).state.comments = s.comments ∧
      (GetPosts s).state.profile = s.profile) ∧
    ((GetPost params s).state.posts = s.posts ∧ (GetPost params s).state.comments = s.comments ∧
      (GetPost params s).state.profile = s.profile) ∧
    ((GetAuthorPosts params s).state.posts = s.posts ∧
      (GetAuthorPosts params s).state.comments = s.comments ∧
      (GetAuthorPosts params s).state.profile = s.profile) ∧
    ((GetPostComments params s).state.posts = s.posts ∧
      (GetPostComments params s).state.comments = s.comments ∧
      (GetPostComments params s).state.profile = s.profile) ∧
    ((GetComments s).state.posts = s.posts ∧ (GetComments s).state.comments = s.comments ∧
      (GetComments s).state.profile = s.profile) ∧
    ((GetComment params s).state.posts = s.posts ∧
      (GetComment params s).state.comments = s.comments ∧
      (GetComment params s).state.profile = s.profile) ∧
    ((GetCommentsPost params s).state.posts = s.posts ∧
      (GetCommentsPost params s).state.comments = s.comments ∧
      (GetCommentsPost params s).state.profile = s.profile) ∧
    ((GetProfile s).state.posts = s.posts ∧ (GetProfile s).state.comments = s.comments ∧
      (GetProfile s).state.profile = s.profile) := by
  obtain ⟨hp1, hp2, hp3, _⟩ := GetPost_frame params s
  obtain ⟨hc1, hc2, hc3, _⟩ := GetComment_frame params s
  exact ⟨⟨rfl, rfl⟩, ⟨rfl, rfl, rfl⟩, ⟨hp1, hp2, hp3⟩, ⟨rfl, rfl, rfl⟩, ⟨rfl, rfl, rfl⟩,
    ⟨rfl, rfl, rfl⟩, ⟨hc1, hc2, hc3⟩, ⟨rfl, rfl, rfl⟩, ⟨rfl, rfl, rfl⟩⟩

end MainServer
